import Mathlib

/-
Verification development for the layout and input core of two-eight.py
(repository Olocool17/two-eight).

The Python source is shallowly embedded below.  Python's unbounded
integers are modelled by Int, Python's floor division // by Int.fdiv,
curses pad objects and all drawing calls (draw_static, refresh,
addch/addstr, newpad) are outside the model: they never feed back into
the geometry, scrolling or routing state that the claims are about.
The fields of Pad that only feed the drawing calls (justification and
absolute screen coordinates computed by resize_abs) are likewise
omitted; no claim mentions them.
-/

/-! ### Pad geometry state (class Pad / class VertScrollPad) -/

/-- State of a Pad object: the mutable attributes of class Pad that take part
in resize and scroll computations, together with the per-class configuration
attributes (stretch flags, min/max dimensions).  The two scroll fields belong
to VertScrollPad; they are inert on plain pads. -/
structure PS where
  height : Int
  width : Int
  uly : Int
  ulx : Int
  bry : Int
  brx : Int
  clipheight : Int
  clipwidth : Int
  stretch_clipheight : Bool
  stretch_clipwidth : Bool
  min_height : Int
  min_width : Int
  max_height : Int
  max_width : Int
  refreshable : Bool
  scroll_variable : Int
  scrollpos : Int
deriving DecidableEq

/-- Pad.resize.  `parent = none` models `self.parent is None`;
`parent = some r` models a parent whose `refreshable` attribute is `r`.
The trailing pad (re)allocation and draw_static call of the source only
touch the curses pad object, not the modelled state. -/
def padResize (parent : Option Bool) (s : PS) : PS :=
  let s := { s with clipheight := s.bry - s.uly + 1, clipwidth := s.brx - s.ulx + 1 }
  if s.clipheight ≤ (0 : Int) ∨ s.clipwidth ≤ (0 : Int) then
    { s with refreshable := false }
  else
    let s := { s with refreshable := match parent with | none => true | some r => r }
    let s : PS :=
      match parent with
      | some _ =>
        let s :=
          if s.stretch_clipheight then
            let h := max s.clipheight s.min_height
            { s with height := if s.max_height > 0 then min h s.max_height else h }
          else s
        if s.stretch_clipwidth then
          let w := max s.clipwidth s.min_width
          { s with width := if s.max_width > 0 then min w s.max_width else w }
        else s
      | none => { s with height := s.clipheight, width := s.clipwidth }
    if s.height ≤ 0 ∨ s.width ≤ 0 then { s with refreshable := false } else s

/-- VertScrollPad.scroll. -/
def scroll (s : PS) (select : Int) : PS :=
  let s := { s with scroll_variable := select }
  let prescroll := Int.fdiv s.clipheight 4
  let select_scroll_delta_lower := select - prescroll
  let select_scroll_delta_upper := select - s.clipheight + prescroll + 1
  let s :=
    if select_scroll_delta_upper > s.scrollpos then
      { s with scrollpos := select_scroll_delta_upper }
    else if select_scroll_delta_lower < s.scrollpos then
      { s with scrollpos := select_scroll_delta_lower }
    else s
  { s with scrollpos := max 0 (min (s.height - s.clipheight) s.scrollpos) }

/-- VertScrollPad.resize: Pad.resize followed by re-applying scroll with the
stored scroll_variable. -/
def vpadResize (parent : Option Bool) (s : PS) : PS :=
  let s := padResize parent s
  scroll s s.scroll_variable

/-! ### Frame layout (class Frame) -/

inductive AXIS where
  | Y
  | X
deriving DecidableEq

inductive SIZING where
  | FIT
  | FILL
  | FIXED
deriving DecidableEq

inductive ALIGNMENT where
  | SNUG
  | EVEN
deriving DecidableEq

inductive JUSTIFY where
  | LEFT
  | CENTER
  | RIGHT
deriving DecidableEq

/-- The per-class configuration attributes of a Frame. -/
structure FAttrs where
  main_axis : AXIS
  sizing_y : SIZING
  sizing_x : SIZING
  alignment : ALIGNMENT
  alignment_justify : JUSTIFY
  bordered : Bool
deriving DecidableEq

/-- A node of the layout tree: a plain Pad, a VertScrollPad, or a Frame
with its configuration attributes and its ordered children (self.pads). -/
inductive Node where
  | pad (s : PS)
  | vpad (s : PS)
  | frame (a : FAttrs) (s : PS) (kids : List Node)

/-- The mutable pad state of a node. -/
def nodeState : Node → PS
  | .pad s => s
  | .vpad s => s
  | .frame _ s _ => s

/-- `child.bordered if isinstance(child, Frame) else False`. -/
def nodeBordered : Node → Bool
  | .frame a _ _ => a.bordered
  | _ => false

/-- The children of a node (self.pads of a frame; leaves have none). -/
def nodeKids : Node → List Node
  | .frame _ _ ks => ks
  | _ => []

/-- Python max over a list; the source calls max on a generator, which
raises on an empty sequence, so the claims only use nonempty lists. -/
def pyMax : List Int → Int
  | [] => 0
  | x :: xs => xs.foldl max x

/-- Initial coordinate of the SNUG alignment, from the inner match on
alignment_justify in Frame.resize. -/
def snugStart (j : JUSTIFY) (selfLen total : Int) : Int :=
  match j with
  | .LEFT => 0
  | .RIGHT => selfLen - total
  | .CENTER => Int.fdiv (selfLen - total) 2

/-- The coordinates appended by `for child in self.pads[:-1]` in the SNUG
case: coord is increased by each child's main length and appended. -/
def snugCoords : List Int → Int → List Int
  | [], _ => []
  | h :: t, coord => (coord + h) :: snugCoords t (coord + h)

/-- The coordinates appended by `for child in self.pads[:-1]` in the EVEN
case: coord is increased by child_space and appended. -/
def evenCoords (cs : Int) : Nat → Int → List Int
  | 0, _ => []
  | n + 1, coord => (coord + cs) :: evenCoords cs n (coord + cs)

/-- clip_list of Frame.resize: starts as [0], grows per alignment, and ends
with the frame's own main length.  `lens` are the children's main lengths;
Python's `len(self.pads)` division (EVEN) raises on zero children, and
Int.fdiv _ 0 = 0 stands in for that unreachable case. -/
def clipList (al : ALIGNMENT) (j : JUSTIFY) (selfLen : Int) (lens : List Int) : List Int :=
  match al with
  | .SNUG => 0 :: (snugCoords lens.dropLast (snugStart j selfLen lens.sum) ++ [selfLen])
  | .EVEN => 0 :: (evenCoords (Int.fdiv selfLen (lens.length : Int)) (lens.length - 1) 0 ++ [selfLen])

/-- zip(clip_list[:-1], clip_list[1:]). -/
def adjacentPairs : List Int → List (Int × Int)
  | a :: b :: rest => (a, b) :: adjacentPairs (b :: rest)
  | _ => []

/-- max(min(v, limit), 0) — the upper-left clamp of child_resize_y/x. -/
def clampLow (limit v : Int) : Int := max (min v limit) 0

/-- max(min(v, limit - 1), -1) — the bottom-right clamp of child_resize_y/x. -/
def clampHigh (limit v : Int) : Int := max (min v (limit - 1)) (-1)

/-- child_resize_y: assigns uly/bry clamped against self.height, shifted by
one if the parent is bordered. -/
def childResizeY (selfHeight pb : Int) (s : PS) (uly bry : Int) : PS :=
  { s with uly := clampLow selfHeight uly + pb, bry := clampHigh selfHeight bry + pb }

/-- child_resize_x: assigns ulx/brx clamped against self.width, shifted by
one if the parent is bordered. -/
def childResizeX (selfWidth pb : Int) (s : PS) (ulx brx : Int) : PS :=
  { s with ulx := clampLow selfWidth ulx + pb, brx := clampHigh selfWidth brx + pb }

/-- The `for child, start_clip, end_clip in zip(...)` loop of Frame.resize,
threading last_bordered: each child's state receives its main-axis bounds
via aMain, which gets (start_clip - shared, end_clip - 1) where shared is
one exactly when this child and the previous one are both bordered frames
(one unit of border is shared), and then its off-axis bounds via aOff. -/
def assignStates (aMain : PS → Int → Int → PS) (aOff : PS → PS) :
    List Node → List (Int × Int) → Bool → List PS
  | [], _, _ => []
  | _ :: _, [], _ => []
  | k :: ks, p :: ps, lastB =>
    let curB := nodeBordered k
    aOff (aMain (nodeState k) (p.1 - (if lastB && curB then 1 else 0)) (p.2 - 1)) ::
      assignStates aMain aOff ks ps curB

mutual

/-- resize() of a node whose mutable state was just set to st (Frame.resize
assigns every child's coordinates first and then calls child.resize(); the
two phases commute child-wise because a child's resize reads only its own
state and the parent's refreshable flag).  A plain pad runs Pad.resize, a
VertScrollPad runs Pad.resize followed by scroll, and a frame runs
Frame.resize with spawning = False: Pad.resize on the frame itself, border
subtraction, main-axis partition and child coordinate assignment with
border sharing, border restoration, then the recursive resize of every
child. -/
def nodeResizeWith (parent : Option Bool) : Node → PS → Node
  | .pad _, st => .pad (padResize parent st)
  | .vpad _, st => .vpad (vpadResize parent st)
  | .frame a _ kids, st =>
    let s := padResize parent st
    let s := if a.bordered then { s with width := s.width - 2, height := s.height - 2 } else s
    let pb : Int := if a.bordered then 1 else 0
    match a.main_axis with
    | .Y =>
      let cl := clipList a.alignment a.alignment_justify s.height
        (kids.map (fun k => (nodeState k).height))
      let off_length := s.width
      let assigned := assignStates (fun c u b => childResizeY s.height pb c u b)
        (fun c => childResizeX s.width pb c 0 (off_length - 1)) kids (adjacentPairs cl) false
      let s := if a.bordered then { s with height := s.height + 2, width := s.width + 2 } else s
      .frame a s (resizeKids (some s.refreshable) kids assigned)
    | .X =>
      let cl := clipList a.alignment a.alignment_justify s.width
        (kids.map (fun k => (nodeState k).width))
      let off_length := s.height
      let assigned := assignStates (fun c u b => childResizeX s.width pb c u b)
        (fun c => childResizeY s.height pb c 0 (off_length - 1)) kids (adjacentPairs cl) false
      let s := if a.bordered then { s with height := s.height + 2, width := s.width + 2 } else s
      .frame a s (resizeKids (some s.refreshable) kids assigned)

/-- The `for child in self.pads: child.resize()` loop at the end of
Frame.resize: every child is resized from its newly assigned state. -/
def resizeKids (parent : Option Bool) : List Node → List PS → List Node
  | k :: ks, st :: ss => nodeResizeWith parent k st :: resizeKids parent ks ss
  | _, _ => []

end

/-- resize() of a node from its current state. -/
def nodeResize (parent : Option Bool) (k : Node) : Node :=
  nodeResizeWith parent k (nodeState k)

/-- Frame.resize, projected onto the frame's own post-state and its
resized children. -/
def frameResize (parent : Option Bool) (a : FAttrs) (s : PS) (kids : List Node) :
    PS × List Node :=
  let r := nodeResizeWith parent (.frame a s kids) s
  (nodeState r, nodeKids r)

/-- Frame.fit_resize: derives the frame's own extent on each FIT axis from
the children's current extents, plus 2 * bordered. -/
def fitResize (a : FAttrs) (s : PS) (kids : List Node) : PS :=
  let b : Int := if a.bordered then 2 else 0
  let s :=
    if a.sizing_y = SIZING.FIT then
      { s with height :=
        (match a.main_axis with
         | .X => pyMax (kids.map (fun k => (nodeState k).height))
         | .Y => (kids.map (fun k => (nodeState k).height)).sum) + b }
    else s
  if a.sizing_x = SIZING.FIT then
    { s with width :=
      (match a.main_axis with
       | .Y => pyMax (kids.map (fun k => (nodeState k).width))
       | .X => (kids.map (fun k => (nodeState k).width)).sum) + b }
  else s

/-- The children's heights, as read by fit_resize and by the claims below. -/
def heightsOf (l : List Node) : List Int := l.map (fun k => (nodeState k).height)

/-- The children's widths. -/
def widthsOf (l : List Node) : List Int := l.map (fun k => (nodeState k).width)

/-- fit_resize followed by resize, the pass triggered by Frame.spawn. -/
def fitThenResize (parent : Option Bool) (a : FAttrs) (s : PS) (kids : List Node) :
    PS × List Node :=
  frameResize parent a (fitResize a s kids) kids

/-- The main-axis upper-left coordinate of a pad state. -/
def mainLo (ax : AXIS) (s : PS) : Int :=
  match ax with
  | .Y => s.uly
  | .X => s.ulx

/-- The main-axis bottom-right coordinate of a pad state. -/
def mainHi (ax : AXIS) (s : PS) : Int :=
  match ax with
  | .Y => s.bry
  | .X => s.brx

/-- The main-axis extent a child was assigned (bottom - top + 1). -/
def mainExtent (ax : AXIS) (s : PS) : Int := mainHi ax s - mainLo ax s + 1

/-- The main-axis length attribute (main_length in Frame.resize). -/
def mainLen (ax : AXIS) (s : PS) : Int :=
  match ax with
  | .Y => s.height
  | .X => s.width

/-- The interior main-axis length a frame distributes among its children:
its own main length after Pad.resize, inside the border when bordered. -/
def interiorMain (pr : Option Bool) (a : FAttrs) (s : PS) : Int :=
  mainLen a.main_axis (padResize pr s) - (if a.bordered then 2 else 0)

/-- The per-child shared-border shift of the assignment loop: one for a
child that is a bordered frame whose predecessor was a bordered frame too
(the pair shares one unit of border), else zero. -/
def shifts : Bool → List Node → List Int
  | _, [] => []
  | lastB, k :: ks => (if lastB && nodeBordered k then 1 else 0) :: shifts (nodeBordered k) ks

/-! ### Input routing (class Input) -/

/-- A key of the controls dictionary.  getch delivers integer key codes
(code n); on_any additionally stores the string key "*" (star) and, because
on_key receives the Input object itself as a first vararg, the Input object
as a key (selfref) — an inert entry that no integer key code ever matches. -/
inductive KeyT where
  | code (n : Int)
  | star
  | selfref
deriving DecidableEq

/-- A handler invocation: the handler (bound functions are modelled by
opaque identifiers) and the value of the router's attribute c visible to it
at the moment it is invoked. -/
structure Event where
  handler : Nat
  seen : Option Int
deriving DecidableEq

/-- State of an Input object.  controls is the binding dictionary;
controller and screen are the installed duck-typed objects (opaque
identifiers); fallback is the delegation chain, each entry either an object
without an input attribute (none) or an object carrying its own Input
(some router); cfield is the attribute c as last written by process;
fallback_store/controls_store are the save slots written by the context
manager (None outside a capture). -/
inductive Router where
  | mk (controls : KeyT → Option Nat) (controller : Option Nat) (screen : Option Nat)
      (fallback : List (Option Router)) (cfield : Option Int)
      (fallback_store : Option (List (Option Router)))
      (controls_store : Option (KeyT → Option Nat))

def Router.controls : Router → (KeyT → Option Nat)
  | .mk c _ _ _ _ _ _ => c

def Router.controller : Router → Option Nat
  | .mk _ c _ _ _ _ _ => c

def Router.screen : Router → Option Nat
  | .mk _ _ s _ _ _ _ => s

def Router.fallback : Router → List (Option Router)
  | .mk _ _ _ f _ _ _ => f

def Router.cfield : Router → Option Int
  | .mk _ _ _ _ c _ _ => c

def Router.fallback_store : Router → Option (List (Option Router))
  | .mk _ _ _ _ _ f _ => f

def Router.controls_store : Router → Option (KeyT → Option Nat)
  | .mk _ _ _ _ _ _ c => c

mutual

/-- Input.process.  With no controller installed it logs and returns with
the state untouched.  Otherwise it assigns c to the attribute c, then
dispatches: a direct binding, else a wildcard binding, else the delegation
walk over the fallback chain.  Returns the updated state and the handler
invocations in order. -/
def process : Router → Int → Router × List Event
  | .mk controls controller screen fallback cf fs cs, c =>
    match controller with
    | none => (.mk controls controller screen fallback cf fs cs, [])
    | some _ =>
      match controls (.code c) with
      | some f => (.mk controls controller screen fallback (some c) fs cs, [⟨f, some c⟩])
      | none =>
        match controls .star with
        | some f => (.mk controls controller screen fallback (some c) fs cs, [⟨f, some c⟩])
        | none =>
          let r := processFallback fallback c
          (.mk controls controller screen r.1 (some c) fs cs, r.2)

/-- The `for e in self.fallback` walk: an entry without an input attribute
is skipped with a logged warning; an entry with an Input is delegated to
via e.input.process(c).  The walk visits every entry; it has no break. -/
def processFallback : List (Option Router) → Int → List (Option Router) × List Event
  | [], _ => ([], [])
  | none :: rest, c =>
    let r := processFallback rest c
    (none :: r.1, r.2)
  | some router :: rest, c =>
    let hd := process router c
    let r := processFallback rest c
    (some hd.1 :: r.1, hd.2 ++ r.2)

end

/-- One iteration of the `for c in self.c` loop of Input.__call__: warn
(BindingConflict) when the key is already bound, then bind it to func. -/
def regStep (f : Nat) (acc : (KeyT → Option Nat) × Nat) (k : KeyT) :
    (KeyT → Option Nat) × Nat :=
  let w := if (acc.1 k).isSome then acc.2 + 1 else acc.2
  (fun k2 => if k2 = k then some f else acc.1 k2, w)

/-- The whole `for c in self.c` loop of Input.__call__.  Returns the updated
dictionary and the number of warnings logged. -/
def registerKeys (keys : List KeyT) (f : Nat) (controls : KeyT → Option Nat) :
    (KeyT → Option Nat) × Nat :=
  keys.foldl (regStep f) (controls, 0)

/-- on_key(keys...) followed by the decorator call Input.__call__(func). -/
def bindKeys (keys : List KeyT) (f : Nat) : Router → Router × Nat
  | .mk controls controller screen fallback cf fs cs =>
    let r := registerKeys keys f controls
    (.mk r.1 controller screen fallback cf fs cs, r.2)

/-- Input.install: replaces controller, fallback and screen. -/
def install (ctrl : Option Nat) (fb : List (Option Router)) (scr : Option Nat) :
    Router → Router
  | .mk controls _ _ _ cf fs cs => .mk controls ctrl scr fb cf fs cs

/-- Input.__enter__ (seize): saves the delegation chain and a copy of the
binding dictionary into the store slots and clears the chain.  The binding
dictionary itself is left in place. -/
def enterC : Router → Router
  | .mk controls controller screen fallback cf _ _ =>
    .mk controls controller screen [] cf (some fallback) (some controls)

/-- Input.__exit__: unconditionally restores the delegation chain and the
binding dictionary from the store slots, then resets the slots to None.
(If seize was never entered the Python attributes would be None; the claims
never exercise that untyped case, and the model then keeps the current
values.) -/
def exitC : Router → Router
  | .mk controls controller screen fallback cf fs cs =>
    .mk (cs.getD controls) controller screen (fs.getD fallback) cf none none

/-- An operation a capture handler can perform on the router while the
capture loop runs: register bindings, re-install controller and chain, or
process a key (which invokes handlers). -/
inductive IOp where
  | bind (keys : List KeyT) (f : Nat)
  | installO (ctrl : Option Nat) (fb : List (Option Router)) (scr : Option Nat)
  | processO (c : Int)

def applyOp (r : Router) : IOp → Router
  | .bind keys f => (bindKeys keys f r).1
  | .installO ctrl fb scr => install ctrl fb scr r
  | .processO c => (process r c).1

/-! ### Concrete sample states used by witnesses and counterexamples -/

/-- A delegation-chain entry with its own Input: key 119 bound to handler 11. -/
def chainEntryA : Router :=
  .mk (fun k => if k = .code 119 then some 11 else none) (some 1) none [] none none none

/-- A second delegation-chain entry: key 119 bound to handler 22. -/
def chainEntryB : Router :=
  .mk (fun k => if k = .code 119 then some 22 else none) (some 2) none [] none none none

/-- A router with no own binding for key 119, no wildcard, and a delegation
chain of two router-bearing entries. -/
def chainedRouter : Router :=
  .mk (fun _ => none) (some 0) none [some chainEntryA, some chainEntryB] none none none

/-- A router that binds key 7 to handler 9 before any capture begins. -/
def preboundRouter : Router :=
  .mk (fun k => if k = .code 7 then some 9 else none) (some 0) none [] none none none

/-- An EVEN-aligned, unbordered frame with main axis Y and fixed sizing. -/
def evenAttrs : FAttrs := ⟨.Y, .FIXED, .FIXED, .EVEN, .LEFT, false⟩

/-- Frame state with main-axis interior 11 (height 11, clip 11 by 5). -/
def evenFrameState : PS := ⟨11, 5, 0, 0, 10, 4, 0, 0, false, false, 0, 0, 0, 0, false, 0, 0⟩

/-- A plain non-stretching child pad. -/
def smallPad : PS := ⟨1, 5, 0, 0, 0, 0, 0, 0, false, false, 0, 0, 0, 0, false, 0, 0⟩

/-- Three plain children for the EVEN partition. -/
def evenKids : List Node := [.pad smallPad, .pad smallPad, .pad smallPad]

/-- A FIT-height, unbordered frame with main axis Y. -/
def fitAttrs : FAttrs := ⟨.Y, .FIT, .FIXED, .SNUG, .LEFT, false⟩

/-- Frame state for the FIT frame (offered clip 21 by 41). -/
def fitFrameState : PS := ⟨0, 30, 0, 0, 20, 40, 0, 0, false, false, 0, 0, 0, 0, false, 0, 0⟩

/-- A child pad of current height 2 that stretches its height to the offered
clip with min_height 10 (cf. ActivityTablePad, which stretches its width
with min_width 12). -/
def stretchKid : PS := ⟨2, 30, 0, 0, 0, 0, 0, 0, true, false, 10, 0, 0, 0, false, 0, 0⟩

/-- A childless bordered frame (Frame defaults except bordered = True). -/
def borderedKidAttrs : FAttrs := ⟨.Y, .FIXED, .FIXED, .SNUG, .LEFT, true⟩

/-- The state of a childless bordered frame child. -/
def borderedKidState : PS := ⟨3, 5, 0, 0, 0, 0, 0, 0, false, false, 0, 0, 0, 0, false, 0, 0⟩

/-- Frame state with main-axis interior 10 (height 10, clip 10 by 5). -/
def evenBorderedState : PS := ⟨10, 5, 0, 0, 9, 4, 0, 0, false, false, 0, 0, 0, 0, false, 0, 0⟩

/-- Two adjacent bordered frame children: the second one shares one unit of
border with the first. -/
def evenBorderedKids : List Node :=
  [.frame borderedKidAttrs borderedKidState [], .frame borderedKidAttrs borderedKidState []]

/-! ### Helper lemmas: scrolling -/

theorem scroll_dims (s : PS) (sel : Int) :
    (scroll s sel).height = s.height ∧ (scroll s sel).clipheight = s.clipheight := by
  simp only [scroll]
  split_ifs <;> simp

theorem scroll_bounds (s : PS) (sel : Int) :
    0 ≤ (scroll s sel).scrollpos ∧
      (scroll s sel).scrollpos ≤ max 0 ((scroll s sel).height - (scroll s sel).clipheight) := by
  simp only [scroll]
  split_ifs <;> simp <;> omega

theorem foldl_scroll_bounds (t : List Int) (a : Int) (s : PS) :
    0 ≤ ((a :: t).foldl scroll s).scrollpos ∧
      ((a :: t).foldl scroll s).scrollpos ≤
        max 0 (((a :: t).foldl scroll s).height - ((a :: t).foldl scroll s).clipheight) := by
  induction t generalizing a s with
  | nil => exact scroll_bounds s a
  | cons b t ih => exact ih b (scroll s a)

theorem scroll_band_eq (s : PS) (sel : Int)
    (h1 : 0 ≤ s.scrollpos)
    (h2 : s.scrollpos ≤ max 0 (s.height - s.clipheight))
    (h3 : s.scrollpos + Int.fdiv s.clipheight 4 ≤ sel)
    (h4 : sel ≤ s.scrollpos + s.clipheight - Int.fdiv s.clipheight 4 - 1) :
    scroll s sel = { s with scroll_variable := sel } := by
  have hu : ¬(sel - s.clipheight + Int.fdiv s.clipheight 4 + 1 > s.scrollpos) := by omega
  have hl : ¬(sel - Int.fdiv s.clipheight 4 < s.scrollpos) := by omega
  simp only [scroll, hu, if_false, hl, if_neg, ite_false]
  simp only [PS.mk.injEq, true_and, and_true]
  omega

/-! ### Helper lemmas: process events -/

theorem processFallback_events (l : List (Option Router)) (c : Int) :
    (processFallback l c).2 =
      (l.map (fun e => match e with | none => ([] : List Event) | some r => (process r c).2)).flatten := by
  induction l with
  | nil => simp [processFallback]
  | cons hd t ih =>
    cases hd with
    | none => simp [processFallback, ih]
    | some r => simp [processFallback, ih]

/-! ### Claim C6 -/

/-- C6: for every scroll region and every finite sequence of scroll calls
starting from scrollpos = 0, after each call (each call in the sequence is
the last call of a nonempty prefix, itself such a sequence) the scroll
offset lies in [0, max 0 (height - clipheight)], where height is the pad's
content height and clipheight its clip height. -/
theorem c6_scroll_offset_bounded (s : PS) (h0 : s.scrollpos = 0) (l : List Int) (hl : l ≠ []) :
    0 ≤ (l.foldl scroll s).scrollpos ∧
      (l.foldl scroll s).scrollpos ≤
        max 0 ((l.foldl scroll s).height - (l.foldl scroll s).clipheight) := by
  cases l with
  | nil => exact absurd rfl hl
  | cons a t => exact foldl_scroll_bounds t a s

/-- Witness for C6 at the spec scenario: visible height 10, content height
48, scroll sequence 0, 9, 47. -/
theorem c6_scroll_offset_bounded_witness :
    (⟨48, 0, 0, 0, 0, 0, 10, 0, false, false, 0, 0, 0, 0, false, 0, 0⟩ : PS).scrollpos = 0 ∧
      ([0, 9, 47] : List Int) ≠ [] ∧
      (0 ≤ (([0, 9, 47] : List Int).foldl scroll
            ⟨48, 0, 0, 0, 0, 0, 10, 0, false, false, 0, 0, 0, 0, false, 0, 0⟩).scrollpos ∧
        (([0, 9, 47] : List Int).foldl scroll
            ⟨48, 0, 0, 0, 0, 0, 10, 0, false, false, 0, 0, 0, 0, false, 0, 0⟩).scrollpos ≤
          max 0 ((([0, 9, 47] : List Int).foldl scroll
              ⟨48, 0, 0, 0, 0, 0, 10, 0, false, false, 0, 0, 0, 0, false, 0, 0⟩).height -
            (([0, 9, 47] : List Int).foldl scroll
              ⟨48, 0, 0, 0, 0, 0, 10, 0, false, false, 0, 0, 0, 0, false, 0, 0⟩).clipheight)) :=
  ⟨rfl, by decide, c6_scroll_offset_bounded _ rfl _ (by decide)⟩

/-! ### Claim C7 -/

/-- C7: when the current scrollpos already lies in
[0, max 0 (height - clipheight)] and the new focus row lies in the band
[scrollpos + margin, scrollpos + clipheight - margin - 1] with
margin = clipheight // 4 (the prescroll value), scroll leaves scrollpos
unchanged, and the call is idempotent. -/
theorem c7_scroll_idempotent_in_band (s : PS) (sel : Int)
    (h1 : 0 ≤ s.scrollpos)
    (h2 : s.scrollpos ≤ max 0 (s.height - s.clipheight))
    (h3 : s.scrollpos + Int.fdiv s.clipheight 4 ≤ sel)
    (h4 : sel ≤ s.scrollpos + s.clipheight - Int.fdiv s.clipheight 4 - 1) :
    (scroll s sel).scrollpos = s.scrollpos ∧ scroll (scroll s sel) sel = scroll s sel := by
  have he := scroll_band_eq s sel h1 h2 h3 h4
  constructor
  · rw [he]
  · rw [he]
    have he2 := scroll_band_eq { s with scroll_variable := sel } sel h1 h2 h3 h4
    rw [he2]

/-- Witness for C7: visible height 10, content height 48, margin 2,
scrollpos 5, focus row 7 inside the band [7, 12]. -/
theorem c7_scroll_idempotent_in_band_witness :
    (0 ≤ (⟨48, 0, 0, 0, 0, 0, 10, 0, false, false, 0, 0, 0, 0, false, 0, 5⟩ : PS).scrollpos ∧
        (⟨48, 0, 0, 0, 0, 0, 10, 0, false, false, 0, 0, 0, 0, false, 0, 5⟩ : PS).scrollpos ≤
          max 0 ((⟨48, 0, 0, 0, 0, 0, 10, 0, false, false, 0, 0, 0, 0, false, 0, 5⟩ : PS).height -
            (⟨48, 0, 0, 0, 0, 0, 10, 0, false, false, 0, 0, 0, 0, false, 0, 5⟩ : PS).clipheight)) ∧
      ((scroll ⟨48, 0, 0, 0, 0, 0, 10, 0, false, false, 0, 0, 0, 0, false, 0, 5⟩ 7).scrollpos =
          (⟨48, 0, 0, 0, 0, 0, 10, 0, false, false, 0, 0, 0, 0, false, 0, 5⟩ : PS).scrollpos ∧
        scroll (scroll ⟨48, 0, 0, 0, 0, 0, 10, 0, false, false, 0, 0, 0, 0, false, 0, 5⟩ 7) 7 =
          scroll ⟨48, 0, 0, 0, 0, 0, 10, 0, false, false, 0, 0, 0, 0, false, 0, 5⟩ 7) :=
  ⟨⟨by decide, by decide⟩,
    c7_scroll_idempotent_in_band _ 7 (by decide) (by decide) (by decide) (by decide)⟩

/-! ### Claim C9 -/

/-- C9: VertScrollPad.resize re-applies scroll with the stored
scroll_variable, so its result is exactly a scroll call on the
Pad.resize-updated geometry, and the scroll offset lies in
[0, max 0 (height - clipheight)] after every resize, whatever the state
and parent. -/
theorem c9_resize_reapplies_scroll (pr : Option Bool) (s : PS) :
    vpadResize pr s = scroll (padResize pr s) (padResize pr s).scroll_variable ∧
      0 ≤ (vpadResize pr s).scrollpos ∧
      (vpadResize pr s).scrollpos ≤
        max 0 ((vpadResize pr s).height - (vpadResize pr s).clipheight) := by
  refine ⟨rfl, ?_, ?_⟩
  · exact (scroll_bounds (padResize pr s) (padResize pr s).scroll_variable).1
  · exact (scroll_bounds (padResize pr s) (padResize pr s).scroll_variable).2

/-! ### Helper lemmas: router state bookkeeping -/

theorem process_stores (r : Router) (c : Int) :
    (process r c).1.fallback_store = r.fallback_store ∧
      (process r c).1.controls_store = r.controls_store := by
  cases r with
  | mk controls controller screen fallback cf fs cs =>
    cases controller with
    | none => simp [process, Router.fallback_store, Router.controls_store]
    | some ct =>
      cases h1 : controls (.code c) with
      | some f => simp [process, h1, Router.fallback_store, Router.controls_store]
      | none =>
        cases h2 : controls .star with
        | some f => simp [process, h1, h2, Router.fallback_store, Router.controls_store]
        | none => simp [process, h1, h2, Router.fallback_store, Router.controls_store]

theorem applyOp_stores (r : Router) (op : IOp) :
    (applyOp r op).fallback_store = r.fallback_store ∧
      (applyOp r op).controls_store = r.controls_store := by
  cases op with
  | bind keys f =>
    cases r with
    | mk controls controller screen fallback cf fs cs =>
      simp [applyOp, bindKeys, Router.fallback_store, Router.controls_store]
  | installO ctrl fb scr =>
    cases r with
    | mk controls controller screen fallback cf fs cs =>
      simp [applyOp, install, Router.fallback_store, Router.controls_store]
  | processO c => exact process_stores r c

theorem foldl_applyOp_stores (ops : List IOp) : ∀ (r0 : Router),
    (ops.foldl applyOp r0).fallback_store = r0.fallback_store ∧
      (ops.foldl applyOp r0).controls_store = r0.controls_store := by
  induction ops with
  | nil => intro r0; exact ⟨rfl, rfl⟩
  | cons op t ih =>
    intro r0
    simp only [List.foldl_cons]
    exact ⟨(ih (applyOp r0 op)).1.trans (applyOp_stores r0 op).1,
      (ih (applyOp r0 op)).2.trans (applyOp_stores r0 op).2⟩

theorem regFold_lookup (f : Nat) : ∀ (keys : List KeyT) (c0 : KeyT → Option Nat) (w : Nat)
    (k : KeyT), ((keys.foldl (regStep f) (c0, w)).1) k = if k ∈ keys then some f else c0 k := by
  intro keys
  induction keys with
  | nil => intro c0 w k; simp
  | cons k1 rest ih =>
    intro c0 w k
    simp only [List.foldl_cons, regStep]
    rw [ih]
    by_cases hk : k ∈ rest
    · simp [hk]
    · by_cases hk1 : k = k1 <;> simp [hk, hk1]

theorem registerKeys_lookup (keys : List KeyT) (f : Nat) (c0 : KeyT → Option Nat) (k : KeyT) :
    (registerKeys keys f c0).1 k = if k ∈ keys then some f else c0 k :=
  regFold_lookup f keys c0 0 k

mutual

theorem process_seen : ∀ (r : Router) (c : Int), ∀ ev ∈ (process r c).2, ev.seen = some c
  | .mk controls controller screen fallback cf fs cs, c => by
    cases controller with
    | none => simp [process]
    | some ct =>
      cases h1 : controls (.code c) with
      | some f =>
        simp only [process, h1]
        intro ev hev
        simp at hev
        rw [hev]
      | none =>
        cases h2 : controls .star with
        | some f =>
          simp only [process, h1, h2]
          intro ev hev
          simp at hev
          rw [hev]
        | none =>
          simp only [process, h1, h2]
          exact processFallback_seen fallback c

theorem processFallback_seen :
    ∀ (l : List (Option Router)) (c : Int), ∀ ev ∈ (processFallback l c).2, ev.seen = some c
  | [], c => by simp [processFallback]
  | none :: rest, c => by
    simp only [processFallback]
    exact processFallback_seen rest c
  | some router :: rest, c => by
    simp only [processFallback]
    intro ev hev
    simp only [List.mem_append] at hev
    cases hev with
    | inl h => exact process_seen router c ev h
    | inr h => exact processFallback_seen rest c ev h

end

/-! ### Claim C1 -/

/-- C1: for every input router, entering capture mode (seize, the context
manager __enter__) and then exiting the capture loop (__exit__, run by the
`with` statement both on the normal InputBreak termination and on any other
exception raised from a capture handler — either way the handlers executed
form some finite list of router operations: binding registrations,
re-installs, processed keys) leaves the delegation chain and the binding
table exactly equal to their pre-capture values; bindings registered or
overwritten during the capture are discarded. -/
theorem c1_capture_restores_router_state (r : Router) (ops : List IOp) :
    (exitC (ops.foldl applyOp (enterC r))).fallback = r.fallback ∧
      (exitC (ops.foldl applyOp (enterC r))).controls = r.controls := by
  obtain ⟨h1, h2⟩ := foldl_applyOp_stores ops (enterC r)
  cases hF : (ops.foldl applyOp (enterC r)) with
  | mk c ct s fb cf fs cs =>
    rw [hF] at h1 h2
    cases r with
    | mk rc rct rs rfb rcf rfs rcs =>
      simp only [enterC, Router.fallback_store, Router.controls_store] at h1 h2
      simp [exitC, Router.fallback, Router.controls, h1, h2]

/-! ### Claim C2 -/

/-- C2 counterexample: a router whose controller has no binding for key 119
and no wildcard, with a delegation chain of two entries that each have a
router binding key 119.  Both entries receive the key and both handlers
(11, then 22) are invoked, so the walk does not stop at the first
router-bearing entry as the claim states. -/
theorem c2_counterexample :
    ((process chainedRouter 119).2).map Event.handler = [11, 22] ∧
      (process chainedRouter 119).2 ≠ [⟨11, some 119⟩] := by
  constructor
  · rfl
  · decide

/-- C2 amended: for a router in the Normal state with an installed
controller, process of a key that is neither bound nor covered by a
wildcard walks the delegation chain in declared order and delegates the key
to EVERY entry that has a router (the walk has no break); entries lacking a
router are skipped as a logged, non-fatal misconfiguration and contribute
no invocation. -/
theorem c2_amended_delegates_to_every_entry (controls : KeyT → Option Nat) (ct : Nat)
    (scr : Option Nat) (fb : List (Option Router)) (cf : Option Int)
    (fs : Option (List (Option Router))) (cs : Option (KeyT → Option Nat)) (c : Int)
    (hc : controls (.code c) = none) (hs : controls .star = none) :
    (process (.mk controls (some ct) scr fb cf fs cs) c).2 =
      (fb.map (fun e => match e with
        | none => ([] : List Event)
        | some r => (process r c).2)).flatten ∧
    (process (.mk controls (some ct) scr fb cf fs cs) c).1 =
      .mk controls (some ct) scr (processFallback fb c).1 (some c) fs cs := by
  constructor
  · simp [process, hc, hs, processFallback_events]
  · simp [process, hc, hs]

/-- Witness for C2 amended at the two-entry chain: the events are exactly
the concatenation of the two entries' own invocations. -/
theorem c2_amended_witness :
    ((fun _ => none : KeyT → Option Nat) (.code 119) = none) ∧
      ((fun _ => none : KeyT → Option Nat) .star = none) ∧
      (process chainedRouter 119).2 =
        (([some chainEntryA, some chainEntryB] : List (Option Router)).map (fun e => match e with
          | none => ([] : List Event)
          | some r => (process r 119).2)).flatten :=
  ⟨rfl, rfl,
    (c2_amended_delegates_to_every_entry (fun _ => none) 0 none
      [some chainEntryA, some chainEntryB] none none none 119 rfl rfl).1⟩

/-! ### Claim C3 -/

/-- C3 counterexample: key 7 is bound to handler 9 before the capture
begins and is not re-bound by the capturer; dispatching key 7 during the
capture still invokes handler 9, because seize (__enter__) only clears the
delegation chain and leaves the binding table in place — the caller-supplied
table is not the sole source of handlers. -/
theorem c3_counterexample :
    (process (enterC preboundRouter) 7).2 = [⟨9, some 7⟩] ∧
      (process (enterC preboundRouter) 7).2 ≠ [] := by
  constructor
  · rfl
  · decide

/-- C3 amended: while a router is in capture mode the delegation chain is
cleared, but the binding table is inherited from the pre-capture state:
bindings registered by the capturer are layered on top of it (overwriting
on collision), and a key bound before the capture that the capturer has not
re-bound still invokes its pre-capture handler. -/
theorem c3_amended_capture_inherits_bindings (controls : KeyT → Option Nat) (ct : Nat)
    (scr : Option Nat) (fb : List (Option Router)) (cf : Option Int)
    (fs : Option (List (Option Router))) (cs : Option (KeyT → Option Nat))
    (keys : List KeyT) (f : Nat) :
    (bindKeys keys f (enterC (.mk controls (some ct) scr fb cf fs cs))).1.fallback = [] ∧
      (∀ k, (bindKeys keys f (enterC (.mk controls (some ct) scr fb cf fs cs))).1.controls k =
        if k ∈ keys then some f else controls k) ∧
      (∀ n h, controls (.code n) = some h → (KeyT.code n) ∉ keys →
        (process (bindKeys keys f (enterC (.mk controls (some ct) scr fb cf fs cs))).1 n).2 =
          [⟨h, some n⟩]) := by
  refine ⟨rfl, ?_, ?_⟩
  · intro k
    simp [bindKeys, enterC, Router.controls, registerKeys_lookup]
  · intro n h hbound hnot
    have hl : (registerKeys keys f controls).1 (.code n) = some h := by
      rw [registerKeys_lookup]
      simp [hnot, hbound]
    simp [bindKeys, enterC, process, hl]

/-- Witness for C3 amended at the prebound router: binding key 13 (carriage
return) to handler 5 during the capture leaves key 7 bound to handler 9,
and processing key 7 invokes handler 9. -/
theorem c3_amended_witness :
    (bindKeys [.code 13] 5 (enterC preboundRouter)).1.fallback = [] ∧
      ((bindKeys [.code 13] 5 (enterC preboundRouter)).1.controls (.code 7) =
        if (KeyT.code 7) ∈ ([KeyT.code 13]) then some 5
        else (fun k => if k = .code 7 then some 9 else none : KeyT → Option Nat) (.code 7)) ∧
      (process (bindKeys [.code 13] 5 (enterC preboundRouter)).1 7).2 = [⟨9, some 7⟩] := by
  have h := c3_amended_capture_inherits_bindings
    (fun k => if k = .code 7 then some 9 else none) 0 none [] none none none [.code 13] 5
  exact ⟨h.1, h.2.1 (.code 7), h.2.2 7 9 (by decide) (by decide)⟩

/-! ### Claim C8 -/

/-- C8: registering handler f for a previously unbound key k records no
warning; re-registering handler g for the same key on the same controller
records exactly one BindingConflict warning at that moment, and process(k)
then invokes only g (the last registration wins). -/
theorem c8_rebinding_last_wins (controls : KeyT → Option Nat) (ct : Nat) (scr : Option Nat)
    (fb : List (Option Router)) (cf : Option Int) (fs : Option (List (Option Router)))
    (cs : Option (KeyT → Option Nat)) (k : Int) (f g : Nat)
    (hunbound : controls (.code k) = none) :
    (bindKeys [.code k] f (.mk controls (some ct) scr fb cf fs cs)).2 = 0 ∧
      (bindKeys [.code k] g
        (bindKeys [.code k] f (.mk controls (some ct) scr fb cf fs cs)).1).2 = 1 ∧
      (process (bindKeys [.code k] g
        (bindKeys [.code k] f (.mk controls (some ct) scr fb cf fs cs)).1).1 k).2 =
        [⟨g, some k⟩] := by
  refine ⟨?_, ?_, ?_⟩
  · simp [bindKeys, registerKeys, regStep, hunbound]
  · simp [bindKeys, registerKeys, regStep, hunbound]
  · simp [bindKeys, registerKeys, regStep, hunbound, process]

/-- Witness for C8: key 119 (the letter w), first handler 1, second
handler 2, on a router with an empty binding table. -/
theorem c8_rebinding_last_wins_witness :
    ((fun _ => none : KeyT → Option Nat) (.code 119) = none) ∧
      (bindKeys [.code 119] 1 (.mk (fun _ => none) (some 0) none [] none none none)).2 = 0 ∧
      (bindKeys [.code 119] 2
        (bindKeys [.code 119] 1 (.mk (fun _ => none) (some 0) none [] none none none)).1).2 = 1 ∧
      (process (bindKeys [.code 119] 2
        (bindKeys [.code 119] 1
          (.mk (fun _ => none) (some 0) none [] none none none)).1).1 119).2 =
        [⟨2, some 119⟩] :=
  ⟨rfl, (c8_rebinding_last_wins (fun _ => none) 0 none [] none none none 119 1 2 rfl).1,
    (c8_rebinding_last_wins (fun _ => none) 0 none [] none none none 119 1 2 rfl).2.1,
    (c8_rebinding_last_wins (fun _ => none) 0 none [] none none none 119 1 2 rfl).2.2⟩

/-! ### Claim C10 -/

/-- C10: process assigns the triggering key to the router's attribute c
before any handler is invoked, so every invoked handler — wildcard handlers
and handlers of routers reached by delegation included — observes exactly
that key through the router; and with no controller installed, process
returns without invoking any handler and without modifying any state. -/
theorem c10_process_assigns_c (r : Router) (c : Int) :
    (∀ ev ∈ (process r c).2, ev.seen = some c) ∧
      (r.controller = none → process r c = (r, [])) := by
  refine ⟨process_seen r c, ?_⟩
  intro h
  cases r with
  | mk controls controller screen fallback cf fs cs =>
    simp only [Router.controller] at h
    subst h
    simp [process]

/-- Witness for C10: a router without a controller drops key 3 with no
invocation and no state change. -/
theorem c10_process_assigns_c_witness :
    (Router.mk (fun _ => none) none none [] none none none).controller = none ∧
      process (Router.mk (fun _ => none) none none [] none none none) 3 =
        (Router.mk (fun _ => none) none none [] none none none, []) :=
  ⟨rfl, (c10_process_assigns_c (Router.mk (fun _ => none) none none [] none none none) 3).2 rfl⟩


theorem padResize_coords (p : Option Bool) (s : PS) :
    (padResize p s).uly = s.uly ∧ (padResize p s).ulx = s.ulx ∧
      (padResize p s).bry = s.bry ∧ (padResize p s).brx = s.brx := by
  cases p <;> simp only [padResize] <;> split_ifs <;> simp

theorem padResize_height_of_no_stretch (pr : Bool) (s : PS)
    (h : s.stretch_clipheight = false) : (padResize (some pr) s).height = s.height := by
  simp only [padResize]
  split_ifs <;> simp_all

theorem padResize_width_of_no_stretch (pr : Bool) (s : PS)
    (h : s.stretch_clipwidth = false) : (padResize (some pr) s).width = s.width := by
  simp only [padResize]
  split_ifs <;> simp_all

theorem scroll_coords (s : PS) (sel : Int) :
    (scroll s sel).uly = s.uly ∧ (scroll s sel).ulx = s.ulx ∧
      (scroll s sel).bry = s.bry ∧ (scroll s sel).brx = s.brx := by
  simp only [scroll]
  split_ifs <;> simp

theorem nodeResizeWith_coords (p : Option Bool) (k : Node) (st : PS) :
    (nodeState (nodeResizeWith p k st)).uly = st.uly ∧
      (nodeState (nodeResizeWith p k st)).ulx = st.ulx ∧
      (nodeState (nodeResizeWith p k st)).bry = st.bry ∧
      (nodeState (nodeResizeWith p k st)).brx = st.brx := by
  cases k with
  | pad s => simpa [nodeResizeWith, nodeState] using padResize_coords p st
  | vpad s =>
    simp only [nodeResizeWith, nodeState, vpadResize]
    have h1 := padResize_coords p st
    have h2 := scroll_coords (padResize p st) (padResize p st).scroll_variable
    exact ⟨h2.1.trans h1.1, h2.2.1.trans h1.2.1, h2.2.2.1.trans h1.2.2.1,
      h2.2.2.2.trans h1.2.2.2⟩
  | frame a s kids =>
    simp only [nodeResizeWith]
    cases haxis : a.main_axis <;> simp only [haxis] <;> split_ifs <;>
      simpa [nodeState] using padResize_coords p st

theorem nodeResizeWith_uly (p : Option Bool) (k : Node) (st : PS) :
    (nodeState (nodeResizeWith p k st)).uly = st.uly := (nodeResizeWith_coords p k st).1

theorem nodeResizeWith_ulx (p : Option Bool) (k : Node) (st : PS) :
    (nodeState (nodeResizeWith p k st)).ulx = st.ulx := (nodeResizeWith_coords p k st).2.1

theorem nodeResizeWith_bry (p : Option Bool) (k : Node) (st : PS) :
    (nodeState (nodeResizeWith p k st)).bry = st.bry := (nodeResizeWith_coords p k st).2.2.1

theorem nodeResizeWith_brx (p : Option Bool) (k : Node) (st : PS) :
    (nodeState (nodeResizeWith p k st)).brx = st.brx := (nodeResizeWith_coords p k st).2.2.2

theorem nodeResizeWith_bordered (p : Option Bool) (k : Node) (st : PS) :
    nodeBordered (nodeResizeWith p k st) = nodeBordered k := by
  cases k with
  | pad s => simp [nodeResizeWith, nodeBordered]
  | vpad s => simp [nodeResizeWith, nodeBordered]
  | frame a s kids =>
    simp only [nodeResizeWith]
    cases haxis : a.main_axis <;> simp only [haxis] <;> split_ifs <;> simp [nodeBordered]

theorem scroll_dims2 (s : PS) (sel : Int) :
    (scroll s sel).height = s.height ∧ (scroll s sel).width = s.width ∧
      (scroll s sel).stretch_clipheight = s.stretch_clipheight ∧
      (scroll s sel).stretch_clipwidth = s.stretch_clipwidth := by
  simp only [scroll]
  split_ifs <;> simp

theorem nodeResizeWith_height_of_no_stretch (r : Bool) (k : Node) (st : PS)
    (h : st.stretch_clipheight = false) :
    (nodeState (nodeResizeWith (some r) k st)).height = st.height := by
  cases k with
  | pad s => simpa [nodeResizeWith, nodeState] using padResize_height_of_no_stretch r st h
  | vpad s =>
    simp only [nodeResizeWith, nodeState, vpadResize]
    exact ((scroll_dims2 (padResize (some r) st) (padResize (some r) st).scroll_variable).1).trans
      (padResize_height_of_no_stretch r st h)
  | frame a s kids =>
    simp only [nodeResizeWith]
    have hp := padResize_height_of_no_stretch r st h
    cases haxis : a.main_axis <;> simp only [haxis] <;> split_ifs <;>
      simp [nodeState] <;> omega

theorem nodeResizeWith_width_of_no_stretch (r : Bool) (k : Node) (st : PS)
    (h : st.stretch_clipwidth = false) :
    (nodeState (nodeResizeWith (some r) k st)).width = st.width := by
  cases k with
  | pad s => simpa [nodeResizeWith, nodeState] using padResize_width_of_no_stretch r st h
  | vpad s =>
    simp only [nodeResizeWith, nodeState, vpadResize]
    exact ((scroll_dims2 (padResize (some r) st) (padResize (some r) st).scroll_variable).2.1).trans
      (padResize_width_of_no_stretch r st h)
  | frame a s kids =>
    simp only [nodeResizeWith]
    have hp := padResize_width_of_no_stretch r st h
    cases haxis : a.main_axis <;> simp only [haxis] <;> split_ifs <;>
      simp [nodeState] <;> omega

theorem adjacentPairs_length : ∀ (l : List Int), (adjacentPairs l).length = l.length - 1
  | [] => rfl
  | [_] => rfl
  | a :: b :: rest => by
    simp only [adjacentPairs, List.length_cons, adjacentPairs_length (b :: rest)]
    omega

theorem snugCoords_length : ∀ (l : List Int) (c : Int), (snugCoords l c).length = l.length
  | [], _ => rfl
  | h :: t, c => by simp [snugCoords, snugCoords_length t]

theorem evenCoords_length (cs : Int) : ∀ (m : Nat) (c : Int), (evenCoords cs m c).length = m
  | 0, _ => rfl
  | m + 1, c => by simp [evenCoords, evenCoords_length cs m]

theorem clipList_pairs_length (al : ALIGNMENT) (j : JUSTIFY) (L : Int) (lens : List Int) :
    lens.length ≤ (adjacentPairs (clipList al j L lens)).length := by
  cases al <;>
    simp [clipList, adjacentPairs_length, snugCoords_length, evenCoords_length] <;> omega

theorem shifts_length : ∀ (lb : Bool) (ks : List Node), (shifts lb ks).length = ks.length
  | _, [] => rfl
  | lb, k :: ks => by simp [shifts, shifts_length (nodeBordered k) ks]

theorem resizeKids_bordered (p : Option Bool) :
    ∀ (ks : List Node) (ss : List PS), ks.length ≤ ss.length →
      (resizeKids p ks ss).map nodeBordered = ks.map nodeBordered := by
  intro ks
  induction ks with
  | nil => intro ss h; cases ss <;> simp [resizeKids]
  | cons k kt ih =>
    intro ss h
    cases ss with
    | nil => simp at h
    | cons st sst =>
      simp only [resizeKids, List.map_cons, nodeResizeWith_bordered]
      rw [ih sst (by simpa using h)]

theorem assignStates_length (aM : PS → Int → Int → PS) (aO : PS → PS) :
    ∀ (ks : List Node) (ps : List (Int × Int)) (lb : Bool),
      (assignStates aM aO ks ps lb).length = min ks.length ps.length := by
  intro ks
  induction ks with
  | nil => intro ps lb; simp [assignStates]
  | cons k kt ih =>
    intro ps lb
    cases ps with
    | nil => simp [assignStates]
    | cons p pt =>
      simp only [assignStates, List.length_cons, ih]
      omega

theorem sum_zipWith_add : ∀ (a b : List Int), a.length = b.length →
    (List.zipWith (fun x y => x + y) a b).sum = a.sum + b.sum := by
  intro a
  induction a with
  | nil => intro b h; cases b <;> simp at h ⊢
  | cons x xt ih =>
    intro b h
    cases b with
    | nil => simp at h
    | cons y yt =>
      simp only [List.zipWith_cons_cons, List.sum_cons, ih yt (by simpa using h)]
      ring

theorem fitResize_flags (a : FAttrs) (s : PS) (kids : List Node) :
    (fitResize a s kids).stretch_clipheight = s.stretch_clipheight ∧
      (fitResize a s kids).stretch_clipwidth = s.stretch_clipwidth := by
  simp only [fitResize]
  split_ifs <;> simp

theorem fitResize_height (a : FAttrs) (s : PS) (kids : List Node)
    (h : a.sizing_y = SIZING.FIT) :
    (fitResize a s kids).height =
      (match a.main_axis with
        | AXIS.X => pyMax (heightsOf kids)
        | AXIS.Y => (heightsOf kids).sum) + (if a.bordered then 2 else 0) := by
  simp only [fitResize, h, heightsOf, if_true]
  try split_ifs <;> simp

theorem fitResize_width (a : FAttrs) (s : PS) (kids : List Node)
    (h : a.sizing_x = SIZING.FIT) :
    (fitResize a s kids).width =
      (match a.main_axis with
        | AXIS.Y => pyMax (widthsOf kids)
        | AXIS.X => (widthsOf kids).sum) + (if a.bordered then 2 else 0) := by
  simp only [fitResize, h, widthsOf, if_true]

theorem frameResize_self_dims (p : Option Bool) (a : FAttrs) (s : PS) (kids : List Node) :
    (frameResize p a s kids).1.height = (padResize p s).height ∧
      (frameResize p a s kids).1.width = (padResize p s).width := by
  simp only [frameResize, nodeResizeWith]
  cases haxis : a.main_axis <;> simp only [haxis] <;> split_ifs <;> simp [nodeState]

theorem resizeKids_assign_heights (aM : PS → Int → Int → PS) (aO : PS → PS) (r : Bool)
    (hM : ∀ s u b, (aM s u b).height = s.height)
    (hMf : ∀ s u b, (aM s u b).stretch_clipheight = s.stretch_clipheight)
    (hO : ∀ s, (aO s).height = s.height)
    (hOf : ∀ s, (aO s).stretch_clipheight = s.stretch_clipheight) :
    ∀ (kids : List Node) (ps : List (Int × Int)) (lb : Bool),
      kids.length ≤ ps.length →
      (∀ k ∈ kids, (nodeState k).stretch_clipheight = false) →
      heightsOf (resizeKids (some r) kids (assignStates aM aO kids ps lb)) = heightsOf kids := by
  intro kids
  induction kids with
  | nil => intro ps lb hlen hflag; simp [assignStates, resizeKids, heightsOf]
  | cons k rest ih =>
    intro ps lb hlen hflag
    cases ps with
    | nil => simp at hlen
    | cons p pt =>
      simp only [assignStates, resizeKids, heightsOf, List.map_cons]
      have h1 : (aO (aM (nodeState k)
          (p.1 - if lb && nodeBordered k then 1 else 0) (p.2 - 1))).stretch_clipheight
          = false := by
        rw [hOf, hMf]
        exact hflag k (List.mem_cons_self k rest)
      rw [nodeResizeWith_height_of_no_stretch r _ _ h1, hO, hM]
      have h2 := ih pt (nodeBordered k) (by simpa using hlen)
        (fun x hx => hflag x (List.mem_cons_of_mem k hx))
      simpa [heightsOf] using h2

theorem resizeKids_assign_widths (aM : PS → Int → Int → PS) (aO : PS → PS) (r : Bool)
    (hM : ∀ s u b, (aM s u b).width = s.width)
    (hMf : ∀ s u b, (aM s u b).stretch_clipwidth = s.stretch_clipwidth)
    (hO : ∀ s, (aO s).width = s.width)
    (hOf : ∀ s, (aO s).stretch_clipwidth = s.stretch_clipwidth) :
    ∀ (kids : List Node) (ps : List (Int × Int)) (lb : Bool),
      kids.length ≤ ps.length →
      (∀ k ∈ kids, (nodeState k).stretch_clipwidth = false) →
      widthsOf (resizeKids (some r) kids (assignStates aM aO kids ps lb)) = widthsOf kids := by
  intro kids
  induction kids with
  | nil => intro ps lb hlen hflag; simp [assignStates, resizeKids, widthsOf]
  | cons k rest ih =>
    intro ps lb hlen hflag
    cases ps with
    | nil => simp at hlen
    | cons p pt =>
      simp only [assignStates, resizeKids, widthsOf, List.map_cons]
      have h1 : (aO (aM (nodeState k)
          (p.1 - if lb && nodeBordered k then 1 else 0) (p.2 - 1))).stretch_clipwidth
          = false := by
        rw [hOf, hMf]
        exact hflag k (List.mem_cons_self k rest)
      rw [nodeResizeWith_width_of_no_stretch r _ _ h1, hO, hM]
      have h2 := ih pt (nodeBordered k) (by simpa using hlen)
        (fun x hx => hflag x (List.mem_cons_of_mem k hx))
      simpa [widthsOf] using h2

theorem frameResize_kids_heights (pr : Bool) (a : FAttrs) (s : PS) (kids : List Node)
    (hk : ∀ k ∈ kids, (nodeState k).stretch_clipheight = false) :
    heightsOf ((frameResize (some pr) a s kids).2) = heightsOf kids := by
  have hlen : ∀ (L : Int),
      kids.length ≤ (adjacentPairs (clipList a.alignment a.alignment_justify L
        (kids.map (fun k => (nodeState k).height)))).length := by
    intro L
    have := clipList_pairs_length a.alignment a.alignment_justify L
      (kids.map (fun k => (nodeState k).height))
    simpa using this
  have hlenw : ∀ (L : Int),
      kids.length ≤ (adjacentPairs (clipList a.alignment a.alignment_justify L
        (kids.map (fun k => (nodeState k).width)))).length := by
    intro L
    have := clipList_pairs_length a.alignment a.alignment_justify L
      (kids.map (fun k => (nodeState k).width))
    simpa using this
  simp only [frameResize, nodeResizeWith, nodeKids]
  cases haxis : a.main_axis <;> simp only [haxis] <;> split_ifs <;>
    (refine resizeKids_assign_heights _ _ _ ?_ ?_ ?_ ?_ kids _ false ?_ hk <;>
      first
        | exact fun s u b => rfl
        | exact fun s => rfl
        | exact hlen _
        | exact hlenw _)

theorem frameResize_kids_widths (pr : Bool) (a : FAttrs) (s : PS) (kids : List Node)
    (hk : ∀ k ∈ kids, (nodeState k).stretch_clipwidth = false) :
    widthsOf ((frameResize (some pr) a s kids).2) = widthsOf kids := by
  have hlen : ∀ (L : Int),
      kids.length ≤ (adjacentPairs (clipList a.alignment a.alignment_justify L
        (kids.map (fun k => (nodeState k).height)))).length := by
    intro L
    have := clipList_pairs_length a.alignment a.alignment_justify L
      (kids.map (fun k => (nodeState k).height))
    simpa using this
  have hlenw : ∀ (L : Int),
      kids.length ≤ (adjacentPairs (clipList a.alignment a.alignment_justify L
        (kids.map (fun k => (nodeState k).width)))).length := by
    intro L
    have := clipList_pairs_length a.alignment a.alignment_justify L
      (kids.map (fun k => (nodeState k).width))
    simpa using this
  simp only [frameResize, nodeResizeWith, nodeKids]
  cases haxis : a.main_axis <;> simp only [haxis] <;> split_ifs <;>
    (refine resizeKids_assign_widths _ _ _ ?_ ?_ ?_ ?_ kids _ false ?_ hk <;>
      first
        | exact fun s u b => rfl
        | exact fun s => rfl
        | exact hlen _
        | exact hlenw _)

theorem head_map_extract (l : List Node) (f : Node → Int) (y : Node) (v : Int)
    (hy : y ∈ l.head?) (hm : (l.map f).head? = some v) : f y = v := by
  cases l with
  | nil => simp at hy
  | cons a t =>
    have hya : y = a := by simpa [List.head?_cons, Option.mem_def] using hy.symm
    subst hya
    simpa using hm

theorem assignedY_uly (H pb W off u b : Int) (r : Bool) (k : Node) :
    (nodeState (nodeResizeWith (some r) k
        (childResizeX W pb (childResizeY H pb (nodeState k) u b) 0 off))).uly
      = clampLow H u + pb := by
  rw [nodeResizeWith_uly]; rfl

theorem assignedY_bry (H pb W off u b : Int) (r : Bool) (k : Node) :
    (nodeState (nodeResizeWith (some r) k
        (childResizeX W pb (childResizeY H pb (nodeState k) u b) 0 off))).bry
      = clampHigh H b + pb := by
  rw [nodeResizeWith_bry]; rfl

theorem assignedX_ulx (W pb H off u b : Int) (r : Bool) (k : Node) :
    (nodeState (nodeResizeWith (some r) k
        (childResizeY H pb (childResizeX W pb (nodeState k) u b) 0 off))).ulx
      = clampLow W u + pb := by
  rw [nodeResizeWith_ulx]; rfl

theorem assignedX_brx (W pb H off u b : Int) (r : Bool) (k : Node) :
    (nodeState (nodeResizeWith (some r) k
        (childResizeY H pb (childResizeX W pb (nodeState k) u b) 0 off))).brx
      = clampHigh W b + pb := by
  rw [nodeResizeWith_brx]; rfl

theorem head_bordered_extract (l m : List Node)
    (h : l.map nodeBordered = m.map nodeBordered) (y : Node) (hy : y ∈ l.head?)
    (z : Node) (hz : z ∈ m.head?) : nodeBordered y = nodeBordered z := by
  cases l with
  | nil => simp [Option.mem_def] at hy
  | cons a l' =>
    cases m with
    | nil => simp [Option.mem_def] at hz
    | cons b m' =>
      simp only [List.head?_cons, Option.mem_def, Option.some.injEq] at hy hz
      subst hy
      subst hz
      simpa using congrArg List.head? h

theorem evenAssignY (H pb W off : Int) (r : Bool) (cs : Int) (hcs : 0 ≤ cs) :
    ∀ (kids : List Node) (c0 : Int) (lastB : Bool), kids ≠ [] → 0 ≤ c0 →
      c0 + ((kids.length : Int) - 1) * cs ≤ H →
      (∀ sh ∈ shifts lastB kids, sh = 0 ∨ 1 ≤ cs) →
      (∀ k0 ∈ kids.head?, (lastB && nodeBordered k0) = true → 1 ≤ c0) →
      (((resizeKids (some r) kids (assignStates (fun c u b => childResizeY H pb c u b)
              (fun c => childResizeX W pb c 0 off) kids
              (adjacentPairs (c0 :: evenCoords cs (kids.length - 1) c0 ++ [H])) lastB)).map
            (fun k => (nodeState k).bry - (nodeState k).uly + 1)) =
          List.zipWith (fun base sh => base + sh)
            (List.replicate (kids.length - 1) cs ++
              [H - c0 - ((kids.length : Int) - 1) * cs])
            (shifts lastB kids)) ∧
      (((resizeKids (some r) kids (assignStates (fun c u b => childResizeY H pb c u b)
              (fun c => childResizeX W pb c 0 off) kids
              (adjacentPairs (c0 :: evenCoords cs (kids.length - 1) c0 ++ [H])) lastB)).map
            (fun k => (nodeState k).uly)).head? =
          (shifts lastB kids).head?.map (fun sh => c0 - sh + pb)) ∧
      ((resizeKids (some r) kids (assignStates (fun c u b => childResizeY H pb c u b)
            (fun c => childResizeX W pb c 0 off) kids
            (adjacentPairs (c0 :: evenCoords cs (kids.length - 1) c0 ++ [H])) lastB)).map
          nodeBordered = kids.map nodeBordered) ∧
      List.Chain' (fun k1 k2 => (nodeState k2).uly =
        (nodeState k1).bry + 1 - (if nodeBordered k1 && nodeBordered k2 then 1 else 0))
        (resizeKids (some r) kids (assignStates (fun c u b => childResizeY H pb c u b)
          (fun c => childResizeX W pb c 0 off) kids
          (adjacentPairs (c0 :: evenCoords cs (kids.length - 1) c0 ++ [H])) lastB)) := by
  intro kids
  induction kids with
  | nil => intro c0 lastB hne; exact absurd rfl hne
  | cons k rest ih =>
    intro c0 lastB _ hc0 hbound hA hB
    have hB0 : (lastB && nodeBordered k) = true → 1 ≤ c0 :=
      hB k (Option.mem_def.mpr rfl)
    cases rest with
    | nil =>
      have hc0H : c0 ≤ H := by simpa using hbound
      simp only [List.length_cons, List.length_nil, Nat.add_sub_cancel, evenCoords,
        List.nil_append, List.cons_append, adjacentPairs, assignStates, resizeKids, shifts,
        List.map_cons, List.map_nil, List.zipWith_cons_cons, List.replicate,
        List.nil_append, List.head?_cons, Option.map_some']
      refine ⟨?_, ?_, ?_, ?_⟩
      · rw [assignedY_bry, assignedY_uly]
        simp only [clampLow, clampHigh, List.cons.injEq, List.zipWith_nil_right,
          List.zipWith_nil_left, and_true, List.length_cons, List.length_nil,
          Nat.cast_one, Nat.zero_add, Nat.cast_zero, Nat.cast_add]
        split_ifs with hb0
        · have := hB0 hb0
          push_cast
          omega
        · push_cast
          omega
      · rw [assignedY_uly]
        simp only [clampLow, Option.some.injEq]
        split_ifs with hb0
        · have := hB0 hb0
          omega
        · omega
      · simp [nodeResizeWith_bordered]
      · simp
    | cons k2 rest2 =>
      have hr0 : (0 : Int) ≤ (rest2.length : Int) := by positivity
      have hbound' : c0 + ((rest2.length : Int) + 1) * cs ≤ H := by
        have hlenInt : ((k :: k2 :: rest2).length : Int) - 1 = (rest2.length : Int) + 1 := by
          simp only [List.length_cons]
          push_cast
          ring
        rw [hlenInt] at hbound
        exact hbound
      have hsplit : ((rest2.length : Int) + 1) * cs = (rest2.length : Int) * cs + cs := by ring
      have hrcs : (0 : Int) ≤ (rest2.length : Int) * cs := mul_nonneg hr0 hcs
      have hccsH : c0 + cs ≤ H := by omega
      have hc0H : c0 ≤ H := by omega
      have hbound2 : (c0 + cs) + (((k2 :: rest2).length : Int) - 1) * cs ≤ H := by
        have hlen2 : ((k2 :: rest2).length : Int) - 1 = (rest2.length : Int) := by
          simp only [List.length_cons]
          push_cast
          ring
        rw [hlen2]
        omega
      have hA2 : ∀ sh ∈ shifts (nodeBordered k) (k2 :: rest2), sh = 0 ∨ 1 ≤ cs := by
        intro sh h
        exact hA sh (List.mem_cons_of_mem _ h)
      have hB2 : ∀ k0 ∈ (k2 :: rest2).head?,
          (nodeBordered k && nodeBordered k0) = true → 1 ≤ c0 + cs := by
        intro k0 hk0 hcond
        have hk0e : k2 = k0 := by
          have h := hk0
          simp only [List.head?_cons, Option.mem_def, Option.some.injEq] at h
          exact h
        subst hk0e
        have hmem : (if nodeBordered k && nodeBordered k2 then (1 : Int) else 0) ∈
            shifts lastB (k :: k2 :: rest2) :=
          List.mem_cons_of_mem _ (List.mem_cons_self _ _)
        have h1 := hA _ hmem
        rw [if_pos hcond] at h1
        rcases h1 with h1 | h1
        · exact absurd h1 (by omega)
        · omega
      have ih2 := ih (c0 + cs) (nodeBordered k) (by simp) (by omega) hbound2 hA2 hB2
      obtain ⟨ihext, ihhead, ihbord, ihchain⟩ := ih2
      simp only [List.length_cons, Nat.add_sub_cancel] at ihext ihhead ihbord ihchain ⊢
      push_cast at ihext ⊢
      simp only [evenCoords, List.append_eq, List.cons_append, adjacentPairs, assignStates,
        resizeKids, shifts, List.map_cons, List.replicate_succ, List.zipWith_cons_cons]
      refine ⟨?_, ?_, ?_, ?_⟩
      · simp only [List.cons_append, List.cons.injEq]
        constructor
        · rw [assignedY_bry, assignedY_uly]
          simp only [clampLow, clampHigh]
          split_ifs with hb0
          · have := hB0 hb0
            omega
          · omega
        · refine ihext.trans ?_
          congr 1
          try simp only [List.cons.injEq, and_true]
          try ring_nf
      · simp only [List.head?_cons, Option.map_some', Option.some.injEq]
        rw [assignedY_uly]
        simp only [clampLow]
        split_ifs with hb0
        · have := hB0 hb0
          omega
        · omega
      · simp only [List.cons.injEq]
        exact ⟨nodeResizeWith_bordered _ _ _, ihbord⟩
      · refine List.chain'_cons'.mpr ⟨?_, ihchain⟩
        intro y hy
        have hshead : (shifts (nodeBordered k) (k2 :: rest2)).head? =
            some (if nodeBordered k && nodeBordered k2 then (1 : Int) else 0) := rfl
        have hm1 := ihhead.trans (by rw [hshead])
        have hyuly : (nodeState y).uly =
            c0 + cs - (if nodeBordered k && nodeBordered k2 then (1 : Int) else 0) + pb :=
          head_map_extract _ (fun k => (nodeState k).uly) y _ hy hm1
        have hybord := head_bordered_extract _ (k2 :: rest2) ihbord y hy k2 rfl
        rw [assignedY_bry, nodeResizeWith_bordered, hyuly, hybord]
        simp only [clampHigh]
        by_cases hbk : nodeBordered k <;> by_cases hbk2 : nodeBordered k2 <;>
          simp only [hbk, hbk2, Bool.and_self, Bool.and_true, Bool.true_and,
            Bool.and_false, Bool.false_and, if_true, if_false] <;> omega

theorem evenAssignX (H pb W off : Int) (r : Bool) (cs : Int) (hcs : 0 ≤ cs) :
    ∀ (kids : List Node) (c0 : Int) (lastB : Bool), kids ≠ [] → 0 ≤ c0 →
      c0 + ((kids.length : Int) - 1) * cs ≤ W →
      (∀ sh ∈ shifts lastB kids, sh = 0 ∨ 1 ≤ cs) →
      (∀ k0 ∈ kids.head?, (lastB && nodeBordered k0) = true → 1 ≤ c0) →
      (((resizeKids (some r) kids (assignStates (fun c u b => childResizeX W pb c u b)
              (fun c => childResizeY H pb c 0 off) kids
              (adjacentPairs (c0 :: evenCoords cs (kids.length - 1) c0 ++ [W])) lastB)).map
            (fun k => (nodeState k).brx - (nodeState k).ulx + 1)) =
          List.zipWith (fun base sh => base + sh)
            (List.replicate (kids.length - 1) cs ++
              [W - c0 - ((kids.length : Int) - 1) * cs])
            (shifts lastB kids)) ∧
      (((resizeKids (some r) kids (assignStates (fun c u b => childResizeX W pb c u b)
              (fun c => childResizeY H pb c 0 off) kids
              (adjacentPairs (c0 :: evenCoords cs (kids.length - 1) c0 ++ [W])) lastB)).map
            (fun k => (nodeState k).ulx)).head? =
          (shifts lastB kids).head?.map (fun sh => c0 - sh + pb)) ∧
      ((resizeKids (some r) kids (assignStates (fun c u b => childResizeX W pb c u b)
            (fun c => childResizeY H pb c 0 off) kids
            (adjacentPairs (c0 :: evenCoords cs (kids.length - 1) c0 ++ [W])) lastB)).map
          nodeBordered = kids.map nodeBordered) ∧
      List.Chain' (fun k1 k2 => (nodeState k2).ulx =
        (nodeState k1).brx + 1 - (if nodeBordered k1 && nodeBordered k2 then 1 else 0))
        (resizeKids (some r) kids (assignStates (fun c u b => childResizeX W pb c u b)
          (fun c => childResizeY H pb c 0 off) kids
          (adjacentPairs (c0 :: evenCoords cs (kids.length - 1) c0 ++ [W])) lastB)) := by
  intro kids
  induction kids with
  | nil => intro c0 lastB hne; exact absurd rfl hne
  | cons k rest ih =>
    intro c0 lastB _ hc0 hbound hA hB
    have hB0 : (lastB && nodeBordered k) = true → 1 ≤ c0 :=
      hB k (Option.mem_def.mpr rfl)
    cases rest with
    | nil =>
      have hc0H : c0 ≤ W := by simpa using hbound
      simp only [List.length_cons, List.length_nil, Nat.add_sub_cancel, evenCoords,
        List.nil_append, List.cons_append, adjacentPairs, assignStates, resizeKids, shifts,
        List.map_cons, List.map_nil, List.zipWith_cons_cons, List.replicate,
        List.nil_append, List.head?_cons, Option.map_some']
      refine ⟨?_, ?_, ?_, ?_⟩
      · rw [assignedX_brx, assignedX_ulx]
        simp only [clampLow, clampHigh, List.cons.injEq, List.zipWith_nil_right,
          List.zipWith_nil_left, and_true, List.length_cons, List.length_nil,
          Nat.cast_one, Nat.zero_add, Nat.cast_zero, Nat.cast_add]
        split_ifs with hb0
        · have := hB0 hb0
          push_cast
          omega
        · push_cast
          omega
      · rw [assignedX_ulx]
        simp only [clampLow, Option.some.injEq]
        split_ifs with hb0
        · have := hB0 hb0
          omega
        · omega
      · simp [nodeResizeWith_bordered]
      · simp
    | cons k2 rest2 =>
      have hr0 : (0 : Int) ≤ (rest2.length : Int) := by positivity
      have hbound' : c0 + ((rest2.length : Int) + 1) * cs ≤ W := by
        have hlenInt : ((k :: k2 :: rest2).length : Int) - 1 = (rest2.length : Int) + 1 := by
          simp only [List.length_cons]
          push_cast
          ring
        rw [hlenInt] at hbound
        exact hbound
      have hsplit : ((rest2.length : Int) + 1) * cs = (rest2.length : Int) * cs + cs := by ring
      have hrcs : (0 : Int) ≤ (rest2.length : Int) * cs := mul_nonneg hr0 hcs
      have hccsH : c0 + cs ≤ W := by omega
      have hc0H : c0 ≤ W := by omega
      have hbound2 : (c0 + cs) + (((k2 :: rest2).length : Int) - 1) * cs ≤ W := by
        have hlen2 : ((k2 :: rest2).length : Int) - 1 = (rest2.length : Int) := by
          simp only [List.length_cons]
          push_cast
          ring
        rw [hlen2]
        omega
      have hA2 : ∀ sh ∈ shifts (nodeBordered k) (k2 :: rest2), sh = 0 ∨ 1 ≤ cs := by
        intro sh h
        exact hA sh (List.mem_cons_of_mem _ h)
      have hB2 : ∀ k0 ∈ (k2 :: rest2).head?,
          (nodeBordered k && nodeBordered k0) = true → 1 ≤ c0 + cs := by
        intro k0 hk0 hcond
        have hk0e : k2 = k0 := by
          have h := hk0
          simp only [List.head?_cons, Option.mem_def, Option.some.injEq] at h
          exact h
        subst hk0e
        have hmem : (if nodeBordered k && nodeBordered k2 then (1 : Int) else 0) ∈
            shifts lastB (k :: k2 :: rest2) :=
          List.mem_cons_of_mem _ (List.mem_cons_self _ _)
        have h1 := hA _ hmem
        rw [if_pos hcond] at h1
        rcases h1 with h1 | h1
        · exact absurd h1 (by omega)
        · omega
      have ih2 := ih (c0 + cs) (nodeBordered k) (by simp) (by omega) hbound2 hA2 hB2
      obtain ⟨ihext, ihhead, ihbord, ihchain⟩ := ih2
      simp only [List.length_cons, Nat.add_sub_cancel] at ihext ihhead ihbord ihchain ⊢
      push_cast at ihext ⊢
      simp only [evenCoords, List.append_eq, List.cons_append, adjacentPairs, assignStates,
        resizeKids, shifts, List.map_cons, List.replicate_succ, List.zipWith_cons_cons]
      refine ⟨?_, ?_, ?_, ?_⟩
      · simp only [List.cons_append, List.cons.injEq]
        constructor
        · rw [assignedX_brx, assignedX_ulx]
          simp only [clampLow, clampHigh]
          split_ifs with hb0
          · have := hB0 hb0
            omega
          · omega
        · refine ihext.trans ?_
          congr 1
          try simp only [List.cons.injEq, and_true]
          try ring_nf
      · simp only [List.head?_cons, Option.map_some', Option.some.injEq]
        rw [assignedX_ulx]
        simp only [clampLow]
        split_ifs with hb0
        · have := hB0 hb0
          omega
        · omega
      · simp only [List.cons.injEq]
        exact ⟨nodeResizeWith_bordered _ _ _, ihbord⟩
      · refine List.chain'_cons'.mpr ⟨?_, ihchain⟩
        intro y hy
        have hshead : (shifts (nodeBordered k) (k2 :: rest2)).head? =
            some (if nodeBordered k && nodeBordered k2 then (1 : Int) else 0) := rfl
        have hm1 := ihhead.trans (by rw [hshead])
        have hyuly : (nodeState y).ulx =
            c0 + cs - (if nodeBordered k && nodeBordered k2 then (1 : Int) else 0) + pb :=
          head_map_extract _ (fun k => (nodeState k).ulx) y _ hy hm1
        have hybord := head_bordered_extract _ (k2 :: rest2) ihbord y hy k2 rfl
        rw [assignedX_brx, nodeResizeWith_bordered, hyuly, hybord]
        simp only [clampHigh]
        by_cases hbk : nodeBordered k <;> by_cases hbk2 : nodeBordered k2 <;>
          simp only [hbk, hbk2, Bool.and_self, Bool.and_true, Bool.true_and,
            Bool.and_false, Bool.false_and, if_true, if_false] <;> omega

theorem fdiv_nonneg2 (I n : Int) (hI : 0 ≤ I) (hn : 0 < n) : 0 ≤ Int.fdiv I n := by
  rw [Int.fdiv_eq_ediv _ (le_of_lt hn)]
  exact Int.ediv_nonneg hI (le_of_lt hn)

theorem fdiv_mul_le (I n : Int) ( _hI : 0 ≤ I) (hn : 0 < n) : n * Int.fdiv I n ≤ I := by
  rw [Int.fdiv_eq_ediv _ (le_of_lt hn)]
  have h := Int.ediv_add_emod I n
  have h2 := Int.emod_nonneg I (ne_of_gt hn)
  omega

theorem c4_partY_b (pr : Option Bool) (a : FAttrs) (s : PS) (kids : List Node)
    (heven : a.alignment = ALIGNMENT.EVEN) (haxis : a.main_axis = AXIS.Y)
    (hb : a.bordered = true) (hne : kids ≠ [])
    (hI : 0 ≤ interiorMain pr a s)
    (hsh : (∀ sh ∈ shifts false kids, sh = 0) ∨
      1 ≤ Int.fdiv (interiorMain pr a s) (kids.length : Int)) :
    ((frameResize pr a s kids).2).map (fun k => mainExtent a.main_axis (nodeState k)) =
      List.zipWith (fun base sh => base + sh)
        (List.replicate (kids.length - 1)
          (Int.fdiv (interiorMain pr a s) (kids.length : Int)) ++
          [interiorMain pr a s - ((kids.length : Int) - 1) *
            Int.fdiv (interiorMain pr a s) (kids.length : Int)])
        (shifts false kids) ∧
      List.Chain' (fun k1 k2 => mainLo a.main_axis (nodeState k2) =
        mainHi a.main_axis (nodeState k1) + 1 -
          (if nodeBordered k1 && nodeBordered k2 then 1 else 0))
        ((frameResize pr a s kids).2) := by
  have hn0 : 0 < (kids.length : Int) := by
    cases kids with
    | nil => exact absurd rfl hne
    | cons k t => exact_mod_cast Nat.succ_pos t.length
  have hIeq : interiorMain pr a s = (padResize pr s).height - 2 := by
    simp [interiorMain, haxis, hb, mainLen]
  rw [hIeq] at hI hsh ⊢
  have hcs0 : 0 ≤ Int.fdiv ((padResize pr s).height - 2) (kids.length : Int) :=
    fdiv_nonneg2 _ _ hI hn0
  have hmul : (kids.length : Int) *
      Int.fdiv ((padResize pr s).height - 2) (kids.length : Int) ≤
      (padResize pr s).height - 2 := fdiv_mul_le _ _ hI hn0
  have hbound : (0 : Int) + ((kids.length : Int) - 1) *
      Int.fdiv ((padResize pr s).height - 2) (kids.length : Int) ≤
      (padResize pr s).height - 2 := by
    have hstep : ((kids.length : Int) - 1) *
        Int.fdiv ((padResize pr s).height - 2) (kids.length : Int) ≤
        (kids.length : Int) *
          Int.fdiv ((padResize pr s).height - 2) (kids.length : Int) :=
      mul_le_mul_of_nonneg_right (by linarith) hcs0
    linarith
  have hA : ∀ sh ∈ shifts false kids, sh = 0 ∨
      1 ≤ Int.fdiv ((padResize pr s).height - 2) (kids.length : Int) := by
    rcases hsh with h | h
    · exact fun sh hm => Or.inl (h sh hm)
    · exact fun sh hm => Or.inr h
  have hB : ∀ k0 ∈ kids.head?, (false && nodeBordered k0) = true → (1 : Int) ≤ 0 := by
    intro k0 _ hc
    simp at hc
  have key := (evenAssignY ((padResize pr s).height - 2) 1 ((padResize pr s).width - 2)
      ((padResize pr s).width - 2 - 1) (padResize pr s).refreshable
      (Int.fdiv ((padResize pr s).height - 2) (kids.length : Int)) hcs0 kids 0 false hne
      le_rfl hbound hA hB)
  obtain ⟨key1, -, -, key4⟩ := key
  simp only [sub_zero] at key1
  simp only [frameResize, nodeResizeWith, nodeKids, heven, haxis, hb, if_true, clipList,
    List.length_map, mainExtent, mainHi, mainLo, mainLo, nodeState]
  exact ⟨key1, key4⟩

theorem c4_partY_nb (pr : Option Bool) (a : FAttrs) (s : PS) (kids : List Node)
    (heven : a.alignment = ALIGNMENT.EVEN) (haxis : a.main_axis = AXIS.Y)
    (hb : a.bordered = false) (hne : kids ≠ [])
    (hI : 0 ≤ interiorMain pr a s)
    (hsh : (∀ sh ∈ shifts false kids, sh = 0) ∨
      1 ≤ Int.fdiv (interiorMain pr a s) (kids.length : Int)) :
    ((frameResize pr a s kids).2).map (fun k => mainExtent a.main_axis (nodeState k)) =
      List.zipWith (fun base sh => base + sh)
        (List.replicate (kids.length - 1)
          (Int.fdiv (interiorMain pr a s) (kids.length : Int)) ++
          [interiorMain pr a s - ((kids.length : Int) - 1) *
            Int.fdiv (interiorMain pr a s) (kids.length : Int)])
        (shifts false kids) ∧
      List.Chain' (fun k1 k2 => mainLo a.main_axis (nodeState k2) =
        mainHi a.main_axis (nodeState k1) + 1 -
          (if nodeBordered k1 && nodeBordered k2 then 1 else 0))
        ((frameResize pr a s kids).2) := by
  have hn0 : 0 < (kids.length : Int) := by
    cases kids with
    | nil => exact absurd rfl hne
    | cons k t => exact_mod_cast Nat.succ_pos t.length
  have hIeq : interiorMain pr a s = (padResize pr s).height := by
    simp [interiorMain, haxis, hb, mainLen]
  rw [hIeq] at hI hsh ⊢
  have hcs0 : 0 ≤ Int.fdiv ((padResize pr s).height) (kids.length : Int) :=
    fdiv_nonneg2 _ _ hI hn0
  have hmul : (kids.length : Int) *
      Int.fdiv ((padResize pr s).height) (kids.length : Int) ≤
      (padResize pr s).height := fdiv_mul_le _ _ hI hn0
  have hbound : (0 : Int) + ((kids.length : Int) - 1) *
      Int.fdiv ((padResize pr s).height) (kids.length : Int) ≤
      (padResize pr s).height := by
    have hstep : ((kids.length : Int) - 1) *
        Int.fdiv ((padResize pr s).height) (kids.length : Int) ≤
        (kids.length : Int) *
          Int.fdiv ((padResize pr s).height) (kids.length : Int) :=
      mul_le_mul_of_nonneg_right (by linarith) hcs0
    linarith
  have hA : ∀ sh ∈ shifts false kids, sh = 0 ∨
      1 ≤ Int.fdiv ((padResize pr s).height) (kids.length : Int) := by
    rcases hsh with h | h
    · exact fun sh hm => Or.inl (h sh hm)
    · exact fun sh hm => Or.inr h
  have hB : ∀ k0 ∈ kids.head?, (false && nodeBordered k0) = true → (1 : Int) ≤ 0 := by
    intro k0 _ hc
    simp at hc
  have key := (evenAssignY ((padResize pr s).height) 0 ((padResize pr s).width)
      ((padResize pr s).width - 1) (padResize pr s).refreshable
      (Int.fdiv ((padResize pr s).height) (kids.length : Int)) hcs0 kids 0 false hne
      le_rfl hbound hA hB)
  obtain ⟨key1, -, -, key4⟩ := key
  simp only [sub_zero] at key1
  simp only [frameResize, nodeResizeWith, nodeKids, heven, haxis, hb, Bool.false_eq_true, if_false, ite_false, clipList,
    List.length_map, mainExtent, mainHi, mainLo, mainLo, nodeState]
  exact ⟨key1, key4⟩

theorem c4_partX_b (pr : Option Bool) (a : FAttrs) (s : PS) (kids : List Node)
    (heven : a.alignment = ALIGNMENT.EVEN) (haxis : a.main_axis = AXIS.X)
    (hb : a.bordered = true) (hne : kids ≠ [])
    (hI : 0 ≤ interiorMain pr a s)
    (hsh : (∀ sh ∈ shifts false kids, sh = 0) ∨
      1 ≤ Int.fdiv (interiorMain pr a s) (kids.length : Int)) :
    ((frameResize pr a s kids).2).map (fun k => mainExtent a.main_axis (nodeState k)) =
      List.zipWith (fun base sh => base + sh)
        (List.replicate (kids.length - 1)
          (Int.fdiv (interiorMain pr a s) (kids.length : Int)) ++
          [interiorMain pr a s - ((kids.length : Int) - 1) *
            Int.fdiv (interiorMain pr a s) (kids.length : Int)])
        (shifts false kids) ∧
      List.Chain' (fun k1 k2 => mainLo a.main_axis (nodeState k2) =
        mainHi a.main_axis (nodeState k1) + 1 -
          (if nodeBordered k1 && nodeBordered k2 then 1 else 0))
        ((frameResize pr a s kids).2) := by
  have hn0 : 0 < (kids.length : Int) := by
    cases kids with
    | nil => exact absurd rfl hne
    | cons k t => exact_mod_cast Nat.succ_pos t.length
  have hIeq : interiorMain pr a s = (padResize pr s).width - 2 := by
    simp [interiorMain, haxis, hb, mainLen]
  rw [hIeq] at hI hsh ⊢
  have hcs0 : 0 ≤ Int.fdiv ((padResize pr s).width - 2) (kids.length : Int) :=
    fdiv_nonneg2 _ _ hI hn0
  have hmul : (kids.length : Int) *
      Int.fdiv ((padResize pr s).width - 2) (kids.length : Int) ≤
      (padResize pr s).width - 2 := fdiv_mul_le _ _ hI hn0
  have hbound : (0 : Int) + ((kids.length : Int) - 1) *
      Int.fdiv ((padResize pr s).width - 2) (kids.length : Int) ≤
      (padResize pr s).width - 2 := by
    have hstep : ((kids.length : Int) - 1) *
        Int.fdiv ((padResize pr s).width - 2) (kids.length : Int) ≤
        (kids.length : Int) *
          Int.fdiv ((padResize pr s).width - 2) (kids.length : Int) :=
      mul_le_mul_of_nonneg_right (by linarith) hcs0
    linarith
  have hA : ∀ sh ∈ shifts false kids, sh = 0 ∨
      1 ≤ Int.fdiv ((padResize pr s).width - 2) (kids.length : Int) := by
    rcases hsh with h | h
    · exact fun sh hm => Or.inl (h sh hm)
    · exact fun sh hm => Or.inr h
  have hB : ∀ k0 ∈ kids.head?, (false && nodeBordered k0) = true → (1 : Int) ≤ 0 := by
    intro k0 _ hc
    simp at hc
  have key := (evenAssignX ((padResize pr s).height - 2) 1 ((padResize pr s).width - 2)
      ((padResize pr s).height - 2 - 1) (padResize pr s).refreshable
      (Int.fdiv ((padResize pr s).width - 2) (kids.length : Int)) hcs0 kids 0 false hne
      le_rfl hbound hA hB)
  obtain ⟨key1, -, -, key4⟩ := key
  simp only [sub_zero] at key1
  simp only [frameResize, nodeResizeWith, nodeKids, heven, haxis, hb, if_true, clipList,
    List.length_map, mainExtent, mainHi, mainLo, mainLo, nodeState]
  exact ⟨key1, key4⟩

theorem c4_partX_nb (pr : Option Bool) (a : FAttrs) (s : PS) (kids : List Node)
    (heven : a.alignment = ALIGNMENT.EVEN) (haxis : a.main_axis = AXIS.X)
    (hb : a.bordered = false) (hne : kids ≠ [])
    (hI : 0 ≤ interiorMain pr a s)
    (hsh : (∀ sh ∈ shifts false kids, sh = 0) ∨
      1 ≤ Int.fdiv (interiorMain pr a s) (kids.length : Int)) :
    ((frameResize pr a s kids).2).map (fun k => mainExtent a.main_axis (nodeState k)) =
      List.zipWith (fun base sh => base + sh)
        (List.replicate (kids.length - 1)
          (Int.fdiv (interiorMain pr a s) (kids.length : Int)) ++
          [interiorMain pr a s - ((kids.length : Int) - 1) *
            Int.fdiv (interiorMain pr a s) (kids.length : Int)])
        (shifts false kids) ∧
      List.Chain' (fun k1 k2 => mainLo a.main_axis (nodeState k2) =
        mainHi a.main_axis (nodeState k1) + 1 -
          (if nodeBordered k1 && nodeBordered k2 then 1 else 0))
        ((frameResize pr a s kids).2) := by
  have hn0 : 0 < (kids.length : Int) := by
    cases kids with
    | nil => exact absurd rfl hne
    | cons k t => exact_mod_cast Nat.succ_pos t.length
  have hIeq : interiorMain pr a s = (padResize pr s).width := by
    simp [interiorMain, haxis, hb, mainLen]
  rw [hIeq] at hI hsh ⊢
  have hcs0 : 0 ≤ Int.fdiv ((padResize pr s).width) (kids.length : Int) :=
    fdiv_nonneg2 _ _ hI hn0
  have hmul : (kids.length : Int) *
      Int.fdiv ((padResize pr s).width) (kids.length : Int) ≤
      (padResize pr s).width := fdiv_mul_le _ _ hI hn0
  have hbound : (0 : Int) + ((kids.length : Int) - 1) *
      Int.fdiv ((padResize pr s).width) (kids.length : Int) ≤
      (padResize pr s).width := by
    have hstep : ((kids.length : Int) - 1) *
        Int.fdiv ((padResize pr s).width) (kids.length : Int) ≤
        (kids.length : Int) *
          Int.fdiv ((padResize pr s).width) (kids.length : Int) :=
      mul_le_mul_of_nonneg_right (by linarith) hcs0
    linarith
  have hA : ∀ sh ∈ shifts false kids, sh = 0 ∨
      1 ≤ Int.fdiv ((padResize pr s).width) (kids.length : Int) := by
    rcases hsh with h | h
    · exact fun sh hm => Or.inl (h sh hm)
    · exact fun sh hm => Or.inr h
  have hB : ∀ k0 ∈ kids.head?, (false && nodeBordered k0) = true → (1 : Int) ≤ 0 := by
    intro k0 _ hc
    simp at hc
  have key := (evenAssignX ((padResize pr s).height) 0 ((padResize pr s).width)
      ((padResize pr s).height - 1) (padResize pr s).refreshable
      (Int.fdiv ((padResize pr s).width) (kids.length : Int)) hcs0 kids 0 false hne
      le_rfl hbound hA hB)
  obtain ⟨key1, -, -, key4⟩ := key
  simp only [sub_zero] at key1
  simp only [frameResize, nodeResizeWith, nodeKids, heven, haxis, hb, Bool.false_eq_true, if_false, ite_false, clipList,
    List.length_map, mainExtent, mainHi, mainLo, mainLo, nodeState]
  exact ⟨key1, key4⟩

/-- C4: EVEN alignment partition: the first N-1 children get floor(interior/N)
plus their shared-border shift, the last child gets the whole remainder plus
its shift; extents sum to interior plus the total shift; adjacent children
abut up to the shared border; the frame keeps interior + 2*border for itself. -/
theorem c4_amended_even_partition (pr : Option Bool) (a : FAttrs) (s : PS)
    (kids : List Node) (heven : a.alignment = ALIGNMENT.EVEN) (hne : kids ≠ [])
    (hI : 0 ≤ interiorMain pr a s)
    (hsh : (∀ sh ∈ shifts false kids, sh = 0) ∨
      1 ≤ Int.fdiv (interiorMain pr a s) (kids.length : Int)) :
    ((frameResize pr a s kids).2).map (fun k => mainExtent a.main_axis (nodeState k)) =
        List.zipWith (fun base sh => base + sh)
          (List.replicate (kids.length - 1)
            (Int.fdiv (interiorMain pr a s) (kids.length : Int)) ++
            [interiorMain pr a s - ((kids.length : Int) - 1) *
              Int.fdiv (interiorMain pr a s) (kids.length : Int)])
          (shifts false kids) ∧
      (((frameResize pr a s kids).2).map
          (fun k => mainExtent a.main_axis (nodeState k))).sum =
        interiorMain pr a s + (shifts false kids).sum ∧
      List.Chain' (fun k1 k2 => mainLo a.main_axis (nodeState k2) =
        mainHi a.main_axis (nodeState k1) + 1 -
          (if nodeBordered k1 && nodeBordered k2 then 1 else 0))
        ((frameResize pr a s kids).2) ∧
      mainLen a.main_axis (frameResize pr a s kids).1 =
        interiorMain pr a s + (if a.bordered then 2 else 0) := by
  have hn1 : 1 ≤ kids.length := by
    cases kids with
    | nil => exact absurd rfl hne
    | cons k t => exact Nat.succ_le_succ (Nat.zero_le _)
  have hpart :
      ((frameResize pr a s kids).2).map (fun k => mainExtent a.main_axis (nodeState k)) =
          List.zipWith (fun base sh => base + sh)
            (List.replicate (kids.length - 1)
              (Int.fdiv (interiorMain pr a s) (kids.length : Int)) ++
              [interiorMain pr a s - ((kids.length : Int) - 1) *
                Int.fdiv (interiorMain pr a s) (kids.length : Int)])
            (shifts false kids) ∧
        List.Chain' (fun k1 k2 => mainLo a.main_axis (nodeState k2) =
          mainHi a.main_axis (nodeState k1) + 1 -
            (if nodeBordered k1 && nodeBordered k2 then 1 else 0))
          ((frameResize pr a s kids).2) := by
    cases haxis : a.main_axis with
    | Y =>
      cases hb : a.bordered with
      | false =>
        have h := c4_partY_nb pr a s kids heven haxis hb hne hI hsh
        rw [haxis] at h
        exact h
      | true =>
        have h := c4_partY_b pr a s kids heven haxis hb hne hI hsh
        rw [haxis] at h
        exact h
    | X =>
      cases hb : a.bordered with
      | false =>
        have h := c4_partX_nb pr a s kids heven haxis hb hne hI hsh
        rw [haxis] at h
        exact h
      | true =>
        have h := c4_partX_b pr a s kids heven haxis hb hne hI hsh
        rw [haxis] at h
        exact h
  obtain ⟨e1, echain⟩ := hpart
  refine ⟨e1, ?_, echain, ?_⟩
  · rw [e1]
    rw [sum_zipWith_add _ _ (by
      simp only [List.length_append, List.length_replicate, List.length_cons,
        List.length_nil, shifts_length]
      omega)]
    simp only [List.sum_append, List.sum_replicate, List.sum_cons, List.sum_nil,
      nsmul_eq_mul]
    rw [Nat.cast_sub hn1, Nat.cast_one]
    ring
  · have hd := frameResize_self_dims pr a s kids
    cases haxis : a.main_axis with
    | Y =>
      simp only [mainLen, interiorMain, haxis]
      rw [hd.1]
      split_ifs <;> ring
    | X =>
      simp only [mainLen, interiorMain, haxis]
      rw [hd.2]
      split_ifs <;> ring

/-- C5: FIT sizing on an axis, with non-stretching children on that axis:
after fit_resize + resize the container's extent on that axis is the sum
(main axis) or max (off axis) of its resized children's extents, plus the
border. -/
theorem c5_amended_fit_extent (pr : Bool) (a : FAttrs) (s : PS) (kids : List Node)
    ( _hne : kids ≠ [])
    (hsy : a.sizing_y = SIZING.FIT → s.stretch_clipheight = false ∧
      ∀ k ∈ kids, (nodeState k).stretch_clipheight = false)
    (hsx : a.sizing_x = SIZING.FIT → s.stretch_clipwidth = false ∧
      ∀ k ∈ kids, (nodeState k).stretch_clipwidth = false) :
    (a.sizing_y = SIZING.FIT →
      (fitThenResize (some pr) a s kids).1.height =
        (match a.main_axis with
          | AXIS.X => pyMax (heightsOf ((fitThenResize (some pr) a s kids).2))
          | AXIS.Y => (heightsOf ((fitThenResize (some pr) a s kids).2)).sum) +
          (if a.bordered then 2 else 0)) ∧
    (a.sizing_x = SIZING.FIT →
      (fitThenResize (some pr) a s kids).1.width =
        (match a.main_axis with
          | AXIS.Y => pyMax (widthsOf ((fitThenResize (some pr) a s kids).2))
          | AXIS.X => (widthsOf ((fitThenResize (some pr) a s kids).2)).sum) +
          (if a.bordered then 2 else 0)) := by
  constructor
  · intro hy
    obtain ⟨hs0, hk0⟩ := hsy hy
    have hkids : heightsOf ((fitThenResize (some pr) a s kids).2) = heightsOf kids := by
      simp only [fitThenResize]
      exact frameResize_kids_heights pr a (fitResize a s kids) kids hk0
    rw [hkids]
    have hself : (fitThenResize (some pr) a s kids).1.height =
        (padResize (some pr) (fitResize a s kids)).height := by
      simp only [fitThenResize]
      exact (frameResize_self_dims (some pr) a (fitResize a s kids) kids).1
    rw [hself, padResize_height_of_no_stretch pr _ (by
      rw [(fitResize_flags a s kids).1]
      exact hs0)]
    exact fitResize_height a s kids hy
  · intro hx
    obtain ⟨hs0, hk0⟩ := hsx hx
    have hkids : widthsOf ((fitThenResize (some pr) a s kids).2) = widthsOf kids := by
      simp only [fitThenResize]
      exact frameResize_kids_widths pr a (fitResize a s kids) kids hk0
    rw [hkids]
    have hself : (fitThenResize (some pr) a s kids).1.width =
        (padResize (some pr) (fitResize a s kids)).width := by
      simp only [fitThenResize]
      exact (frameResize_self_dims (some pr) a (fitResize a s kids) kids).2
    rw [hself, padResize_width_of_no_stretch pr _ (by
      rw [(fitResize_flags a s kids).2]
      exact hs0)]
    exact fitResize_width a s kids hx

/-- C4 counterexample to the frozen claim: interior 11 split EVEN among 3
children gives extents [3, 3, 5]; the last child's 5 is neither
floor(11/3) = 3 nor ceil(11/3) = 4. -/
theorem c4_even_counterexample :
    interiorMain (some true) evenAttrs evenFrameState = 11 ∧
    evenKids.length = 3 ∧
    ((frameResize (some true) evenAttrs evenFrameState evenKids).2).map
      (fun k => mainExtent evenAttrs.main_axis (nodeState k)) = [3, 3, 5] ∧
    ¬((5 : Int) = Int.fdiv 11 3 ∨ (5 : Int) = -Int.fdiv (-11) 3) := by decide

/-- Witness for C4: interior 10 split EVEN between two adjacent bordered
frames gives extents [5, 6] — the second child gains the shared border cell
and the extents sum to interior + 1. -/
theorem c4_amended_even_partition_witness :
    (evenAttrs.alignment = ALIGNMENT.EVEN ∧
      0 ≤ interiorMain (some true) evenAttrs evenBorderedState ∧
      1 ≤ Int.fdiv (interiorMain (some true) evenAttrs evenBorderedState)
        (evenBorderedKids.length : Int)) ∧
    ((frameResize (some true) evenAttrs evenBorderedState evenBorderedKids).2).map
        (fun k => mainExtent evenAttrs.main_axis (nodeState k)) = [5, 6] ∧
    (((frameResize (some true) evenAttrs evenBorderedState evenBorderedKids).2).map
        (fun k => mainExtent evenAttrs.main_axis (nodeState k))).sum =
      interiorMain (some true) evenAttrs evenBorderedState +
        (shifts false evenBorderedKids).sum := by
  have h := c4_amended_even_partition (some true) evenAttrs evenBorderedState
    evenBorderedKids rfl (List.cons_ne_nil _ _) (by decide) (Or.inr (by decide))
  exact ⟨⟨rfl, by decide, by decide⟩, h.1.trans (by decide), h.2.1⟩

/-- C5 counterexample to the frozen claim: a stretching child under a FIT
container grows during its own resize after the container's extent was
already fixed, so the container's height 2 is not the children's sum 10. -/
theorem c5_fit_counterexample :
    fitAttrs.sizing_y = SIZING.FIT ∧
    (fitThenResize (some true) fitAttrs fitFrameState [Node.pad stretchKid]).1.height = 2 ∧
    (heightsOf ((fitThenResize (some true) fitAttrs fitFrameState
      [Node.pad stretchKid]).2)).sum = 10 ∧
    ¬((2 : Int) = 10 + (if fitAttrs.bordered then 2 else 0)) := by decide

/-- Witness for C5: a FIT-height frame over one non-stretching pad of
height 1 ends with height 1, the sum of its resized children's heights. -/
theorem c5_amended_fit_extent_witness :
    (fitAttrs.sizing_y = SIZING.FIT ∧ fitFrameState.stretch_clipheight = false ∧
      (nodeState (Node.pad smallPad)).stretch_clipheight = false) ∧
    (fitThenResize (some true) fitAttrs fitFrameState [Node.pad smallPad]).1.height =
      (heightsOf ((fitThenResize (some true) fitAttrs fitFrameState
        [Node.pad smallPad]).2)).sum + (if fitAttrs.bordered then 2 else 0) := by
  have h := c5_amended_fit_extent true fitAttrs fitFrameState [Node.pad smallPad]
    (List.cons_ne_nil _ _)
    (fun _ => ⟨rfl, by decide⟩)
    (fun hx => absurd hx (by decide))
  exact ⟨⟨rfl, rfl, rfl⟩, h.1 rfl⟩
